import Mathlib

/-!
Verification of the incremental channel-boundary detector
(`src/channel_detector.py`, class `ChannelDetector`).

This file shallowly embeds the detector as a purely functional state
machine.  Python floats are modelled as exact rationals (`ℚ`), Python
ints as `Int`/`Nat`, Python dicts as structures, and the Python `set`
`created_line_pairs` as a duplicate-free list (`setAdd`/`List.erase`
reproduce `set.add`/`set.discard` for membership purposes).  The
timestamp-normalisation helper `to_ms` (defined twice, identically, as
a local function inside `_cleanup_old_candles` and
`_check_line_penetration`) is embedded once, parameterised by the
external pandas datetime parser `parse : String → Option Int` (the
`pd.to_datetime` call is library code outside the repository: success
yields epoch milliseconds, failure raises and is caught by the bare
`except`).

Rational arithmetic is written with the kernel-computable operations
`qadd`/`qsub`/`qmul`/`qdiv`/`qabs` below; the theorems `qadd_eq` …
`qabs_eq` prove each one equal to the corresponding Mathlib field
operation on `ℚ`, so the embedding computes exactly ordinary rational
arithmetic while remaining evaluable by `decide`.

The two constant-empty extension-point fields of the Python class
(`valid_combinations`, `created_combinations`) are written only by
`__init__`/`reset` and read nowhere, so they are omitted from the
state.  The unused config fields `H`, `point`, `dH` are likewise
omitted.  `candle_interval_ms` is hard-coded to `15*60*1000` in
`__init__`, so it is a constant here.
-/

/-- Rational multiplication, computable by the kernel
(`Rat.divInt` normalises): proved equal to `a * b` in `qmul_eq`. -/
def qmul (a b : ℚ) : ℚ := Rat.divInt (a.num * b.num) ((a.den : Int) * (b.den : Int))

/-- Rational addition; proved equal to `a + b` in `qadd_eq`. -/
def qadd (a b : ℚ) : ℚ :=
  Rat.divInt (a.num * b.den + b.num * a.den) ((a.den : Int) * (b.den : Int))

/-- Rational subtraction; proved equal to `a - b` in `qsub_eq`. -/
def qsub (a b : ℚ) : ℚ :=
  Rat.divInt (a.num * b.den - b.num * a.den) ((a.den : Int) * (b.den : Int))

/-- Rational division (`a / 0 = 0`, matching Mathlib's convention —
the Python source divides by a line price it assumes nonzero, see
`_check_line_penetration`); proved equal to `a / b` in `qdiv_eq`. -/
def qdiv (a b : ℚ) : ℚ := Rat.divInt (a.num * b.den) ((a.den : Int) * b.num)

/-- Rational absolute value; proved equal to `|a|` in `qabs_eq`. -/
def qabs (a : ℚ) : ℚ := if a < 0 then Rat.neg a else a

theorem qmul_eq (a b : ℚ) : qmul a b = a * b := by
  unfold qmul
  rw [Rat.divInt_eq_div]
  have ha : ((a.den : ℚ)) ≠ 0 := by exact_mod_cast a.den_nz
  have hb : ((b.den : ℚ)) ≠ 0 := by exact_mod_cast b.den_nz
  push_cast
  conv_rhs => rw [← Rat.num_div_den a, ← Rat.num_div_den b]
  field_simp

theorem qadd_eq (a b : ℚ) : qadd a b = a + b := by
  unfold qadd
  rw [Rat.divInt_eq_div]
  have ha : ((a.den : ℚ)) ≠ 0 := by exact_mod_cast a.den_nz
  have hb : ((b.den : ℚ)) ≠ 0 := by exact_mod_cast b.den_nz
  push_cast
  conv_rhs => rw [← Rat.num_div_den a, ← Rat.num_div_den b]
  field_simp

theorem qsub_eq (a b : ℚ) : qsub a b = a - b := by
  unfold qsub
  rw [Rat.divInt_eq_div]
  have ha : ((a.den : ℚ)) ≠ 0 := by exact_mod_cast a.den_nz
  have hb : ((b.den : ℚ)) ≠ 0 := by exact_mod_cast b.den_nz
  push_cast
  conv_rhs => rw [← Rat.num_div_den a, ← Rat.num_div_den b]
  field_simp
  ring

theorem qdiv_eq (a b : ℚ) : qdiv a b = a / b := by
  unfold qdiv
  rw [Rat.divInt_eq_div]
  by_cases hb : b = 0
  · subst hb; simp
  · have ha : ((a.den : ℚ)) ≠ 0 := by exact_mod_cast a.den_nz
    have hbd : ((b.den : ℚ)) ≠ 0 := by exact_mod_cast b.den_nz
    have hbn : ((b.num : ℚ)) ≠ 0 := by exact_mod_cast Rat.num_ne_zero.mpr hb
    push_cast
    conv_rhs => rw [← Rat.num_div_den a, ← Rat.num_div_den b]
    rw [div_div_div_comm]
    field_simp
    exact Or.inl (mul_comm _ _)

theorem qabs_eq (a : ℚ) : qabs a = |a| := by
  unfold qabs
  rcases le_or_lt 0 a with h | h
  · rw [if_neg (not_lt.mpr h), abs_of_nonneg h]
  · rw [if_pos h, abs_of_neg h]
    rfl

/-- A timestamp value as it may arrive from upstream: an int, a float,
or a datetime string (mirrors the `isinstance(ts, (int, float))` test
in the Python `to_ms` helpers). -/
inductive TSVal where
  | int (i : Int)
  | float (q : ℚ)
  | text (s : String)
deriving DecidableEq

/-- Python `int()` applied to a float truncates toward zero. -/
def ratTowardZero (q : ℚ) : Int := q.num.tdiv q.den

/-- `to_ms` from `_cleanup_old_candles` / `_check_line_penetration`:
numeric values pass through `int(...)`; strings go through
`pd.to_datetime`; any parse failure is swallowed and yields `0`. -/
def to_ms (parse : String → Option Int) : TSVal → Int
  | .int i => i
  | .float q => ratTowardZero q
  | .text s =>
    match parse s with
    | some v => v
    | none => 0

/-- A candle record `{timestamp, open, high, low, close, volume}`. -/
structure Candle where
  timestamp : TSVal
  copen : ℚ
  high : ℚ
  low : ℚ
  close : ℚ
  volume : ℚ
deriving DecidableEq

/-- `'peak'` / `'trough'` pivot tags. -/
inductive PivotType where
  | peak
  | trough
deriving DecidableEq

/-- An input pivot record from the zigzag collaborator:
`{timestamp, price, type}` (pivot timestamps are numeric epoch
milliseconds per the interface contract; the arithmetic in
`create_line` and `validate_single_line` applies to them directly,
without `to_ms`). -/
structure PivotIn where
  timestamp : Int
  price : ℚ
  ptype : PivotType
deriving DecidableEq

/-- A stored pivot (`pivot_full` in `add_pivot`): the input record plus
the assigned monotonically increasing `id`. -/
structure Pivot where
  id : Nat
  timestamp : Int
  price : ℚ
  ptype : PivotType
deriving DecidableEq

/-- `'upper'` / `'lower'` line tags. -/
inductive LineType where
  | upper
  | lower
deriving DecidableEq

/-- A line descriptor as built by `create_line`.  The Python string id
`'line_{id1}_{id2}'` is a deterministic rendering of `point_ids` and
carries no extra information, so it is not modelled separately. -/
structure Line where
  point1 : Pivot
  point2 : Pivot
  slope : ℚ
  intercept : ℚ
  ltype : LineType
  point_ids : Nat × Nat
deriving DecidableEq

/-- Constructor configuration (validation-relevant fields). -/
structure Config where
  max_pivots : Nat
  max_age_ms : Option Int
  max_slope : Option ℚ
  min_distance_candles : ℚ
  max_penetration_pct : ℚ
  max_penetrating_candles : Nat

/-- `self.candle_interval_ms = 15 * 60 * 1000` (hard-coded). -/
def candle_interval_ms : Int := 15 * 60 * 1000

/-- The mutable state of a `ChannelDetector` instance. -/
structure DetectorState where
  peaks_list : List Pivot
  troughs_list : List Pivot
  candles_list : List Candle
  next_pivot_id : Nat
  upper_lines : List Line
  lower_lines : List Line
  created_line_pairs : List (Nat × Nat)
deriving DecidableEq

/-- The state set up by `__init__` (all sequences/sets empty, id
counter zero). -/
def initState : DetectorState :=
  { peaks_list := []
    troughs_list := []
    candles_list := []
    next_pivot_id := 0
    upper_lines := []
    lower_lines := []
    created_line_pairs := [] }

/-- `reset()`: clears everything and restarts the id counter at zero. -/
def reset (_st : DetectorState) : DetectorState :=
  { peaks_list := []
    troughs_list := []
    candles_list := []
    next_pivot_id := 0
    upper_lines := []
    lower_lines := []
    created_line_pairs := [] }

/-- Python `set.add` on the duplicate-free list model. -/
def setAdd (s : List (Nat × Nat)) (x : Nat × Nat) : List (Nat × Nat) :=
  if x ∈ s then s else s ++ [x]

/-- `tuple(sorted([a, b]))`: the order-independent pairing key used by
`_generate_new_lines`. -/
def sortPair (a b : Nat) : Nat × Nat :=
  if a ≤ b then (a, b) else (b, a)

/-- `create_line(point1, point2)`: the line factory.  Returns `none`
for the degenerate equal-timestamp case. -/
def create_line (point1 point2 : Pivot) : Option Line :=
  if point2.timestamp = point1.timestamp then none
  else
    let slope : ℚ :=
      qdiv (qsub point2.price point1.price)
        ((point2.timestamp - point1.timestamp : Int) : ℚ)
    let intercept : ℚ := qsub point1.price (qmul slope (point1.timestamp : ℚ))
    let ltype : LineType := if point1.ptype = .peak then .upper else .lower
    some { point1 := point1
           point2 := point2
           slope := slope
           intercept := intercept
           ltype := ltype
           point_ids := (point1.id, point2.id) }

/-- Rejection reasons of `validate_single_line` (the Python code
returns these as formatted strings; only the reason kind matters). -/
inductive VReason where
  | slopeTooBig
  | tooClose
  | tooManyPenetrating
  | penetrationTooStrong
deriving DecidableEq

/-- The test of check 1: fires iff `max_slope` is configured and
`abs(slope) > max_slope`. -/
def slopeCheckFails (conf : Config) (line : Line) : Bool :=
  match conf.max_slope with
  | none => false
  | some m => decide (qabs line.slope > m)

/-- The penetration percentage of one candle against one line, at the
line price `slope * ts + intercept`
(`((high - line_price) / line_price) * 100` for an upper line,
`((line_price - low) / line_price) * 100` for a lower one). -/
def penetrationPct (parse : String → Option Int) (line : Line) (c : Candle) : ℚ :=
  let cts := to_ms parse c.timestamp
  let line_price := qadd (qmul line.slope (cts : ℚ)) line.intercept
  match line.ltype with
  | .upper => qmul (qdiv (qsub c.high line_price) line_price) 100
  | .lower => qmul (qdiv (qsub line_price c.low) line_price) 100

/-- Whether a candle penetrates the line (`high > line_price` for an
upper line, `low < line_price` for a lower one). -/
def penetrates (parse : String → Option Int) (line : Line) (c : Candle) : Bool :=
  let cts := to_ms parse c.timestamp
  let line_price := qadd (qmul line.slope (cts : ℚ)) line.intercept
  match line.ltype with
  | .upper => decide (c.high > line_price)
  | .lower => decide (c.low < line_price)

/-- `_check_line_penetration(line)`: penetration analysis against the
current candle list.  The Python list `penetrating_candles` stores
`{timestamp, penetration_pct}` records of which only the percentage is
ever read, so it is modelled as the list of percentages. -/
def check_line_penetration (parse : String → Option Int) (conf : Config)
    (candles : List Candle) (line : Line) : Option VReason :=
  if candles.isEmpty then none
  else
    let start_ts := min line.point1.timestamp line.point2.timestamp
    let end_ts := max line.point1.timestamp line.point2.timestamp
    let candles_between := candles.filter (fun c =>
      decide (start_ts < to_ms parse c.timestamp) &&
      decide (to_ms parse c.timestamp < end_ts))
    if candles_between.isEmpty then none
    else
      let pens := candles_between.filterMap (fun c =>
        if penetrates parse line c then some (penetrationPct parse line c) else none)
      if pens.length > conf.max_penetrating_candles then
        some .tooManyPenetrating
      else if pens.any (fun p => decide (p > conf.max_penetration_pct)) then
        some .penetrationTooStrong
      else none

/-- `validate_single_line(line)`: the three ordered checks, short-
circuiting on the first failure.  `none` plays the role of
`(True, "OK")`; `some r` the role of `(False, reason)`. -/
def validate_single_line (parse : String → Option Int) (conf : Config)
    (candles : List Candle) (line : Line) : Option VReason :=
  if slopeCheckFails conf line then some .slopeTooBig
  else
    let time_distance_ms : Nat := (line.point2.timestamp - line.point1.timestamp).natAbs
    let num_candles : ℚ := qdiv (time_distance_ms : ℚ) ((candle_interval_ms : Int) : ℚ)
    if num_candles < conf.min_distance_candles then some .tooClose
    else check_line_penetration parse conf candles line

example :
    create_line
      { id := 0, timestamp := 0, price := 100, ptype := .trough }
      { id := 1, timestamp := 900000, price := 101, ptype := .trough } =
    some { point1 := { id := 0, timestamp := 0, price := 100, ptype := .trough }
           point2 := { id := 1, timestamp := 900000, price := 101, ptype := .trough }
           slope := Rat.divInt 1 900000
           intercept := 100
           ltype := .lower
           point_ids := (0, 1) } := by
  decide

/-- The count rule plus the age rule of `_cleanup_old_pivots`, applied
to one pivot list.  The Python `while len > max_pivots: pop(0)` loop
removes exactly the first `len - max_pivots` elements, i.e. it splits
the list into `take (len - max)` (evicted, in order) and
`drop (len - max)` (kept).  The age rule then reads the timestamp of
the last remaining element (`list[-1]`; the surrounding
`if len(list) > 0` guard plus `max_pivots >= 1` keep this access in
bounds — for `max_pivots = 0` with an age cap configured the Python
code would raise an `IndexError`, so theorems about whole runs assume
`0 < max_pivots`) and removes every element strictly older than
`latest - max_age_ms` (`list.remove` on value-distinct elements is
exactly a filter).  Returns `(removed ids in order, kept list)`. -/
def evictList (conf : Config) (l : List Pivot) : List Nat × List Pivot :=
  let n1 := l.length - conf.max_pivots
  let removed1 := (l.take n1).map Pivot.id
  let l1 := l.drop n1
  match conf.max_age_ms with
  | none => (removed1, l1)
  | some maxAge =>
    match l1.getLast? with
    | none => (removed1, l1)
    | some latest =>
      let cutoff := latest.timestamp - maxAge
      (removed1 ++ (l1.filter (fun p => decide (p.timestamp < cutoff))).map Pivot.id,
        l1.filter (fun p => !decide (p.timestamp < cutoff)))

/-- `_cleanup_old_lines(removed_pivot_ids)`: drop every resident line
with an evicted endpoint (collect-then-`remove` over value-distinct
elements is a filter) and `discard` its `point_ids` pair from
`created_line_pairs`. -/
def cleanup_old_lines (removed_ids : List Nat) (st : DetectorState) : DetectorState :=
  let hitU := fun (l : Line) =>
    decide (l.point1.id ∈ removed_ids) || decide (l.point2.id ∈ removed_ids)
  let removedU := st.upper_lines.filter hitU
  let removedL := st.lower_lines.filter hitU
  { st with
    upper_lines := st.upper_lines.filter (fun l => !hitU l)
    lower_lines := st.lower_lines.filter (fun l => !hitU l)
    created_line_pairs :=
      (removedU ++ removedL).foldl (fun s l => s.erase l.point_ids)
        st.created_line_pairs }

/-- The `oldest_pivot_ts` computation of `_cleanup_old_candles`: the
minimum of the front timestamps of whichever pivot lists are
non-empty. -/
def oldestPivotTs (st : DetectorState) : Option Int :=
  match st.peaks_list.head?, st.troughs_list.head? with
  | some p, some t => some (min p.timestamp t.timestamp)
  | some p, none => some p.timestamp
  | none, some t => some t.timestamp
  | none, none => none

/-- `_cleanup_old_candles()`: drop every candle strictly older
(after `to_ms` normalisation) than the oldest resident pivot. -/
def cleanup_old_candles (parse : String → Option Int) (st : DetectorState) :
    DetectorState :=
  if st.candles_list.isEmpty then st
  else
    match oldestPivotTs st with
    | none => st
    | some oldest_pivot_ms =>
      { st with candles_list :=
          st.candles_list.filter (fun c =>
            decide (to_ms parse c.timestamp ≥ oldest_pivot_ms)) }

/-- `_cleanup_old_pivots()`: evict per-list (peaks first, then
troughs; inside each list the count rule then the age rule), and if
anything was evicted cascade into `_cleanup_old_lines` and
`_cleanup_old_candles`.  Also returns the Python-local `removed_ids`
list so that run-level theorems can speak about evicted pivots. -/
def cleanup_old_pivots_core (parse : String → Option Int) (conf : Config)
    (st : DetectorState) : DetectorState × List Nat :=
  let ep := evictList conf st.peaks_list
  let et := evictList conf st.troughs_list
  let removed_ids := ep.1 ++ et.1
  let st1 := { st with peaks_list := ep.2, troughs_list := et.2 }
  if removed_ids.isEmpty then (st1, removed_ids)
  else (cleanup_old_candles parse (cleanup_old_lines removed_ids st1), removed_ids)

/-- `_update_valid_lines()`: re-validate every resident upper and
lower line against the current candle window; keep only the ones that
pass, discarding the pairs of rejected lines from
`created_line_pairs` (upper list first, then lower, as in the
source). -/
def update_valid_lines (parse : String → Option Int) (conf : Config)
    (st : DetectorState) : DetectorState :=
  let ok := fun (l : Line) =>
    decide (validate_single_line parse conf st.candles_list l = none)
  let rejectedU := st.upper_lines.filter (fun l => !ok l)
  let rejectedL := st.lower_lines.filter (fun l => !ok l)
  { st with
    upper_lines := st.upper_lines.filter ok
    lower_lines := st.lower_lines.filter ok
    created_line_pairs :=
      (rejectedU ++ rejectedL).foldl (fun s l => s.erase l.point_ids)
        st.created_line_pairs }

/-- The candidate-generation loop of `_generate_new_lines`: walk the
new pivot's own list; skip the new pivot itself, skip pairs already in
`created_line_pairs`, skip degenerate lines; otherwise record the line
and mark the sorted id pair as created.  Returns the new lines in
order together with the updated pair set. -/
def genLoop (np : Pivot) (pairs : List (Nat × Nat)) :
    List Pivot → List Line × List (Nat × Nat)
  | [] => ([], pairs)
  | old :: rest =>
    if old.id = np.id then genLoop np pairs rest
    else
      let pair := sortPair old.id np.id
      if pair ∈ pairs then genLoop np pairs rest
      else
        match create_line old np with
        | none => genLoop np pairs rest
        | some line =>
          let out := genLoop np (setAdd pairs pair) rest
          (line :: out.1, out.2)

/-- The pivot lookup of `_generate_new_lines`: scan the peaks list
first, then the troughs list; return the found pivot together with its
own list. -/
def findNewPivot (new_pivot_id : Nat) (st : DetectorState) :
    Option (Pivot × List Pivot) :=
  match st.peaks_list.find? (fun p => decide (p.id = new_pivot_id)) with
  | some p => some (p, st.peaks_list)
  | none =>
    match st.troughs_list.find? (fun t => decide (t.id = new_pivot_id)) with
    | some t => some (t, st.troughs_list)
    | none => none

/-- `_generate_new_lines(new_pivot_id)`: find the new pivot (peaks
list first, then troughs), pair it with the other resident pivots of
the same list, classify the new lines by their `type` tag, and — only
if at least one line was created — re-run `_update_valid_lines`.
Also returns the Python-local `new_lines` list. -/
def generate_new_lines_core (parse : String → Option Int) (conf : Config)
    (new_pivot_id : Nat) (st : DetectorState) : DetectorState × List Line :=
  match findNewPivot new_pivot_id st with
  | none => (st, [])
  | some (np, pivot_list) =>
    let gl := genLoop np st.created_line_pairs pivot_list
    let new_lines := gl.1
    let st1 := { st with
      upper_lines := st.upper_lines ++ new_lines.filter (fun l => decide (l.ltype = .upper))
      lower_lines := st.lower_lines ++ new_lines.filter (fun l => decide (l.ltype = .lower))
      created_line_pairs := gl.2 }
    if new_lines.isEmpty then (st1, new_lines)
    else (update_valid_lines parse conf st1, new_lines)

/-- One inbound record `{candle: ... | absent, pivot: ... | absent}`. -/
structure Record where
  candle : Option Candle
  pivot : Option PivotIn
deriving DecidableEq

/-- The result of one `add_pivot` call, with the Python-local values
(`removed_ids` of `_cleanup_old_pivots`, `new_lines` of
`_generate_new_lines`) exposed for the run-level theorems. -/
structure StepOut where
  state : DetectorState
  pivotId : Option Nat
  removed : List Nat
  newLines : List Line

/-- Step 1 of `add_pivot`: `if candle: self.candles_list.append(candle)`. -/
def ingestCandle (rec : Record) (st : DetectorState) : DetectorState :=
  match rec.candle with
  | some c => { st with candles_list := st.candles_list ++ [c] }
  | none => st

/-- Steps 2–3 of the pivot branch of `add_pivot`: build `pivot_full`
with the next id, bump the id counter, and append to the peaks or
troughs list according to the pivot's type. -/
def appendPivotFull (pv : PivotIn) (st : DetectorState) : DetectorState :=
  match pv.ptype with
  | .peak =>
    { st with
      next_pivot_id := st.next_pivot_id + 1
      peaks_list := st.peaks_list ++
        [{ id := st.next_pivot_id, timestamp := pv.timestamp,
           price := pv.price, ptype := pv.ptype }] }
  | .trough =>
    { st with
      next_pivot_id := st.next_pivot_id + 1
      troughs_list := st.troughs_list ++
        [{ id := st.next_pivot_id, timestamp := pv.timestamp,
           price := pv.price, ptype := pv.ptype }] }

/-- `add_pivot(zigzag_output)`: ingest the candle (always, when
present), then — if a pivot is present — assign the next id, append to
the matching pivot list, evict, and generate/validate lines. -/
def add_pivot_core (parse : String → Option Int) (conf : Config)
    (rec : Record) (st : DetectorState) : StepOut :=
  let st0 := ingestCandle rec st
  match rec.pivot with
  | none => { state := st0, pivotId := none, removed := [], newLines := [] }
  | some pv =>
    let pivot_id := st0.next_pivot_id
    let st2 := appendPivotFull pv st0
    let cc := cleanup_old_pivots_core parse conf st2
    let gg := generate_new_lines_core parse conf pivot_id cc.1
    { state := gg.1, pivotId := some pivot_id, removed := cc.2,
      newLines := gg.2 }

/-- The state after one `add_pivot` call. -/
def add_pivot (parse : String → Option Int) (conf : Config)
    (rec : Record) (st : DetectorState) : DetectorState :=
  (add_pivot_core parse conf rec st).state

/-- The state after a sequence of `add_pivot` calls. -/
def runRecords (parse : String → Option Int) (conf : Config)
    (recs : List Record) (st : DetectorState) : DetectorState :=
  recs.foldl (fun s r => add_pivot parse conf r s) st

/-- The state after a sequence of `add_pivot` calls together with
every pivot id evicted at any point during the run (the concatenation
of the per-call `removed_ids`). -/
def runTrace (parse : String → Option Int) (conf : Config)
    (recs : List Record) (st : DetectorState) (ev : List Nat) :
    DetectorState × List Nat :=
  match recs with
  | [] => (st, ev)
  | r :: rest =>
    let out := add_pivot_core parse conf r st
    runTrace parse conf rest out.state (ev ++ out.removed)

/-- Default-ish configuration used for concrete runs (the `__main__`
demo constructs `max_pivots=5, max_slope=None` variants; the defaults
are `max_penetration_pct=0.3`, `max_penetrating_candles=2`). -/
def conf0 : Config :=
  { max_pivots := 5, max_age_ms := none, max_slope := none,
    min_distance_candles := 3, max_penetration_pct := Rat.divInt 3 10,
    max_penetrating_candles := 2 }

/-- A datetime parser that fails on every string (concrete runs below
use numeric timestamps only, so the parser is never consulted). -/
def parse0 : String → Option Int := fun _ => none

/-- Shorthand for a plain candle at an integer timestamp. -/
def mkCandle (ts : Int) (high low : ℚ) : Candle :=
  { timestamp := .int ts, copen := 100, high := high, low := low,
    close := 100, volume := 1 }

example :
    (runRecords parse0 conf0
      [ { candle := some (mkCandle 0 101 99),
          pivot := some { timestamp := 0, price := 100, ptype := .trough } },
        { candle := some (mkCandle 3600000 101 99),
          pivot := some { timestamp := 3600000, price := 100, ptype := .trough } } ]
      initState).lower_lines.length = 1 := by
  decide

theorem runRecords_nil (parse : String → Option Int) (conf : Config)
    (st : DetectorState) : runRecords parse conf [] st = st := rfl

theorem runRecords_cons (parse : String → Option Int) (conf : Config)
    (r : Record) (recs : List Record) (st : DetectorState) :
    runRecords parse conf (r :: recs) st =
      runRecords parse conf recs (add_pivot parse conf r st) := rfl

theorem cleanup_old_lines_frame (removed_ids : List Nat) (st : DetectorState) :
    (cleanup_old_lines removed_ids st).peaks_list = st.peaks_list ∧
    (cleanup_old_lines removed_ids st).troughs_list = st.troughs_list ∧
    (cleanup_old_lines removed_ids st).candles_list = st.candles_list ∧
    (cleanup_old_lines removed_ids st).next_pivot_id = st.next_pivot_id :=
  ⟨rfl, rfl, rfl, rfl⟩

theorem cleanup_old_lines_upper (removed_ids : List Nat) (st : DetectorState) :
    (cleanup_old_lines removed_ids st).upper_lines =
      st.upper_lines.filter (fun l =>
        !(decide (l.point1.id ∈ removed_ids) || decide (l.point2.id ∈ removed_ids))) :=
  rfl

theorem cleanup_old_lines_lower (removed_ids : List Nat) (st : DetectorState) :
    (cleanup_old_lines removed_ids st).lower_lines =
      st.lower_lines.filter (fun l =>
        !(decide (l.point1.id ∈ removed_ids) || decide (l.point2.id ∈ removed_ids))) :=
  rfl

theorem cleanup_old_candles_frame (parse : String → Option Int) (st : DetectorState) :
    (cleanup_old_candles parse st).peaks_list = st.peaks_list ∧
    (cleanup_old_candles parse st).troughs_list = st.troughs_list ∧
    (cleanup_old_candles parse st).upper_lines = st.upper_lines ∧
    (cleanup_old_candles parse st).lower_lines = st.lower_lines ∧
    (cleanup_old_candles parse st).next_pivot_id = st.next_pivot_id ∧
    (cleanup_old_candles parse st).created_line_pairs = st.created_line_pairs := by
  unfold cleanup_old_candles
  split
  · exact ⟨rfl, rfl, rfl, rfl, rfl, rfl⟩
  · split
    · exact ⟨rfl, rfl, rfl, rfl, rfl, rfl⟩
    · exact ⟨rfl, rfl, rfl, rfl, rfl, rfl⟩

theorem cleanup_old_candles_sublist (parse : String → Option Int) (st : DetectorState) :
    (cleanup_old_candles parse st).candles_list.Sublist st.candles_list := by
  unfold cleanup_old_candles
  split
  · exact List.Sublist.refl _
  · split
    · exact List.Sublist.refl _
    · exact List.filter_sublist _

theorem update_valid_lines_frame (parse : String → Option Int) (conf : Config)
    (st : DetectorState) :
    (update_valid_lines parse conf st).peaks_list = st.peaks_list ∧
    (update_valid_lines parse conf st).troughs_list = st.troughs_list ∧
    (update_valid_lines parse conf st).candles_list = st.candles_list ∧
    (update_valid_lines parse conf st).next_pivot_id = st.next_pivot_id :=
  ⟨rfl, rfl, rfl, rfl⟩

theorem update_valid_lines_upper (parse : String → Option Int) (conf : Config)
    (st : DetectorState) :
    (update_valid_lines parse conf st).upper_lines =
      st.upper_lines.filter (fun l =>
        decide (validate_single_line parse conf st.candles_list l = none)) :=
  rfl

theorem update_valid_lines_lower (parse : String → Option Int) (conf : Config)
    (st : DetectorState) :
    (update_valid_lines parse conf st).lower_lines =
      st.lower_lines.filter (fun l =>
        decide (validate_single_line parse conf st.candles_list l = none)) :=
  rfl

theorem cleanup_core_next (parse : String → Option Int) (conf : Config)
    (st : DetectorState) :
    (cleanup_old_pivots_core parse conf st).1.next_pivot_id = st.next_pivot_id := by
  unfold cleanup_old_pivots_core
  dsimp only
  split
  · rfl
  · rw [(cleanup_old_candles_frame _ _).2.2.2.2.1,
      (cleanup_old_lines_frame _ _).2.2.2]

theorem cleanup_core_peaks (parse : String → Option Int) (conf : Config)
    (st : DetectorState) :
    (cleanup_old_pivots_core parse conf st).1.peaks_list =
      (evictList conf st.peaks_list).2 := by
  unfold cleanup_old_pivots_core
  dsimp only
  split
  · rfl
  · rw [(cleanup_old_candles_frame _ _).1, (cleanup_old_lines_frame _ _).1]

theorem cleanup_core_troughs (parse : String → Option Int) (conf : Config)
    (st : DetectorState) :
    (cleanup_old_pivots_core parse conf st).1.troughs_list =
      (evictList conf st.troughs_list).2 := by
  unfold cleanup_old_pivots_core
  dsimp only
  split
  · rfl
  · rw [(cleanup_old_candles_frame _ _).2.1, (cleanup_old_lines_frame _ _).2.1]

theorem cleanup_core_candles (parse : String → Option Int) (conf : Config)
    (st : DetectorState) :
    (cleanup_old_pivots_core parse conf st).1.candles_list.Sublist st.candles_list := by
  unfold cleanup_old_pivots_core
  dsimp only
  split
  · exact List.Sublist.refl _
  · refine List.Sublist.trans (cleanup_old_candles_sublist _ _) ?_
    rw [(cleanup_old_lines_frame _ _).2.2.1]

theorem gen_core_frame (parse : String → Option Int) (conf : Config)
    (pid : Nat) (st : DetectorState) :
    (generate_new_lines_core parse conf pid st).1.peaks_list = st.peaks_list ∧
    (generate_new_lines_core parse conf pid st).1.troughs_list = st.troughs_list ∧
    (generate_new_lines_core parse conf pid st).1.candles_list = st.candles_list ∧
    (generate_new_lines_core parse conf pid st).1.next_pivot_id = st.next_pivot_id := by
  unfold generate_new_lines_core
  split
  · exact ⟨rfl, rfl, rfl, rfl⟩
  · dsimp only
    split
    · exact ⟨rfl, rfl, rfl, rfl⟩
    · exact ⟨(update_valid_lines_frame _ _ _).1, (update_valid_lines_frame _ _ _).2.1,
        (update_valid_lines_frame _ _ _).2.2.1, (update_valid_lines_frame _ _ _).2.2.2⟩


theorem ingestCandle_frame (rec : Record) (st : DetectorState) :
    (ingestCandle rec st).peaks_list = st.peaks_list ∧
    (ingestCandle rec st).troughs_list = st.troughs_list ∧
    (ingestCandle rec st).upper_lines = st.upper_lines ∧
    (ingestCandle rec st).lower_lines = st.lower_lines ∧
    (ingestCandle rec st).next_pivot_id = st.next_pivot_id ∧
    (ingestCandle rec st).created_line_pairs = st.created_line_pairs := by
  unfold ingestCandle
  split
  · exact ⟨rfl, rfl, rfl, rfl, rfl, rfl⟩
  · exact ⟨rfl, rfl, rfl, rfl, rfl, rfl⟩

theorem ingestCandle_candles_le (rec : Record) (st : DetectorState) :
    (ingestCandle rec st).candles_list.length ≤
      st.candles_list.length + (if rec.candle.isSome then 1 else 0) := by
  unfold ingestCandle
  cases h : rec.candle with
  | none => simp
  | some c => simp

theorem appendPivotFull_frame (pv : PivotIn) (st : DetectorState) :
    (appendPivotFull pv st).candles_list = st.candles_list ∧
    (appendPivotFull pv st).upper_lines = st.upper_lines ∧
    (appendPivotFull pv st).lower_lines = st.lower_lines ∧
    (appendPivotFull pv st).created_line_pairs = st.created_line_pairs ∧
    (appendPivotFull pv st).next_pivot_id = st.next_pivot_id + 1 := by
  unfold appendPivotFull
  cases pv.ptype
  · exact ⟨rfl, rfl, rfl, rfl, rfl⟩
  · exact ⟨rfl, rfl, rfl, rfl, rfl⟩

theorem add_pivot_state (parse : String → Option Int) (conf : Config)
    (rec : Record) (pv : PivotIn) (hp : rec.pivot = some pv) (st : DetectorState) :
    add_pivot parse conf rec st =
      (generate_new_lines_core parse conf (ingestCandle rec st).next_pivot_id
        (cleanup_old_pivots_core parse conf
          (appendPivotFull pv (ingestCandle rec st))).1).1 := by
  unfold add_pivot add_pivot_core
  rw [hp]

theorem add_pivot_state_nopivot (parse : String → Option Int) (conf : Config)
    (rec : Record) (hp : rec.pivot = none) (st : DetectorState) :
    add_pivot parse conf rec st = ingestCandle rec st := by
  unfold add_pivot add_pivot_core
  rw [hp]

theorem add_pivot_candles_le (parse : String → Option Int) (conf : Config)
    (rec : Record) (st : DetectorState) :
    (add_pivot parse conf rec st).candles_list.length ≤
      st.candles_list.length + (if rec.candle.isSome then 1 else 0) := by
  cases hp : rec.pivot with
  | none =>
    rw [add_pivot_state_nopivot parse conf rec hp st]
    exact ingestCandle_candles_le rec st
  | some pv =>
    rw [add_pivot_state parse conf rec pv hp st]
    rw [(gen_core_frame _ _ _ _).2.2.1]
    refine le_trans (cleanup_core_candles _ _ _).length_le ?_
    rw [(appendPivotFull_frame _ _).1]
    exact ingestCandle_candles_le rec st

/-- A record carrying a candle but no pivot (a candle-only update). -/
def candleOnlyRec : Record :=
  { candle := some (mkCandle 0 100 100), pivot := none }

theorem run_candleOnly_length (parse : String → Option Int) (conf : Config)
    (n : Nat) (st : DetectorState) :
    (runRecords parse conf (List.replicate n candleOnlyRec) st).candles_list.length =
      st.candles_list.length + n := by
  induction n generalizing st with
  | zero => simp [runRecords]
  | succ n ih =>
    rw [List.replicate_succ, runRecords_cons,
      add_pivot_state_nopivot parse conf candleOnlyRec rfl st, ih]
    simp [ingestCandle, candleOnlyRec]
    omega

/-- With the fixed configuration `conf0`, no bound `B` caps the candle
sequence length over all insertion sequences — `n` candle-only records
leave `n` resident candles.  Hence the candle sequence is not bounded
by any function of the configuration alone. -/
theorem candles_unbounded_by_config :
    ∀ B : Nat, ∃ n : Nat,
      B < (runRecords parse0 conf0 (List.replicate n candleOnlyRec)
        initState).candles_list.length := by
  intro B
  refine ⟨B + 1, ?_⟩
  rw [run_candleOnly_length]
  show B < 0 + (B + 1)
  omega

/-- C4, refuting part: with `max_pivots = 5`, a run of 1000 candle-only
records ends with 1000 resident candles (`_cleanup_old_candles` never
runs because no pivot is ever evicted), so the candle sequence is not
`O(maxPivots)`; `candles_unbounded_by_config` shows no
configuration-only bound exists at all. -/
theorem c4_counterexample :
    conf0.max_pivots = 5 ∧
    (runRecords parse0 conf0 (List.replicate 1000 candleOnlyRec)
      initState).candles_list.length = 1000 := by
  constructor
  · rfl
  · rw [run_candleOnly_length]
    rfl

/-- C4, amended: the peaks and troughs sequences are bounded by
`max_pivots` (see `c5_pivot_lists_bounded`), but the candle sequence
is not bounded by the configuration: it only ever grows by one per
candle-carrying record and is trimmed to the resident-pivot span on
pivot eviction, so after any run from a fresh detector its length is
at most the number of candle-carrying records processed — a bound
depending on the input, not on the configuration. -/
theorem c4_amended_candle_growth (parse : String → Option Int) (conf : Config)
    (recs : List Record) (hmp : 0 < conf.max_pivots) :
    (runRecords parse conf recs initState).candles_list.length ≤
      recs.countP (fun r => r.candle.isSome) := by
  have aux : ∀ (l : List Record) (st : DetectorState),
      (runRecords parse conf l st).candles_list.length ≤
        st.candles_list.length + l.countP (fun r => r.candle.isSome) := by
    intro l
    induction l with
    | nil => intro st; simp [runRecords]
    | cons r rest ih =>
      intro st
      rw [runRecords_cons]
      refine le_trans (ih (add_pivot parse conf r st)) ?_
      have h1 := add_pivot_candles_le parse conf r st
      rw [List.countP_cons]
      cases h : r.candle.isSome <;> simp [h] at h1 ⊢ <;> omega
  have h := aux recs initState
  simpa [initState] using h

theorem c4_amended_candle_growth_witness :
    0 < conf0.max_pivots ∧
    (runRecords parse0 conf0 [candleOnlyRec, candleOnlyRec]
      initState).candles_list.length ≤
      [candleOnlyRec, candleOnlyRec].countP (fun r => r.candle.isSome) :=
  ⟨by decide, c4_amended_candle_growth parse0 conf0 [candleOnlyRec, candleOnlyRec]
    (by decide)⟩

/-- C8: `reset()` restores exactly the freshly-constructed state (all
sequences and the dedup set empty, id counter zero), so re-running the
same insertion sequence after a reset reproduces the identical final
state — in particular identical resident upper/lower line sets and
identical pivot ids, with ids restarting at zero. -/
theorem c8_reset_idempotent (parse : String → Option Int) (conf : Config)
    (recs : List Record) (hmp : 0 < conf.max_pivots) :
    (reset (runRecords parse conf recs initState)).next_pivot_id = 0 ∧
    runRecords parse conf recs (reset (runRecords parse conf recs initState)) =
      runRecords parse conf recs initState :=
  ⟨rfl, rfl⟩

theorem c8_reset_idempotent_witness :
    0 < conf0.max_pivots ∧
    ((reset (runRecords parse0 conf0 [candleOnlyRec] initState)).next_pivot_id = 0 ∧
      runRecords parse0 conf0 [candleOnlyRec]
          (reset (runRecords parse0 conf0 [candleOnlyRec] initState)) =
        runRecords parse0 conf0 [candleOnlyRec] initState) :=
  ⟨by decide, c8_reset_idempotent parse0 conf0 [candleOnlyRec] (by decide)⟩

/-- C9: a timestamp value that is not numeric and that the datetime
parser cannot parse is normalised to epoch zero by `to_ms` — the
fallback returns `0` instead of propagating an error, so a malformed
timestamp never aborts an `add_pivot` call (every function of this
embedding is total). -/
theorem c9_to_ms_fallback_zero (parse : String → Option Int) (s : String)
    (h : parse s = none) : to_ms parse (.text s) = 0 := by
  simp [to_ms, h]

theorem c9_to_ms_fallback_zero_witness :
    parse0 "not-a-timestamp" = none ∧
    to_ms parse0 (.text "not-a-timestamp") = 0 :=
  ⟨rfl, c9_to_ms_fallback_zero parse0 "not-a-timestamp" rfl⟩

/-- Spec-side, for C2: the line's price at a timestamp,
`linePrice = slope * ts + intercept`, written with ordinary field
operations. -/
def spec_line_price (line : Line) (ts : Int) : ℚ :=
  line.slope * (ts : ℚ) + line.intercept

/-- Spec-side, for C2: the candles whose (normalised) timestamp is
strictly between the two endpoint timestamps, endpoints excluded. -/
def spec_between (parse : String → Option Int) (candles : List Candle)
    (line : Line) : List Candle :=
  candles.filter (fun c =>
    decide (min line.point1.timestamp line.point2.timestamp < to_ms parse c.timestamp) &&
    decide (to_ms parse c.timestamp < max line.point1.timestamp line.point2.timestamp))

/-- Spec-side, for C2: a candle penetrates an upper line iff
`high > linePrice`, a lower line iff `low < linePrice`. -/
def spec_penetrates (parse : String → Option Int) (line : Line) (c : Candle) : Bool :=
  match line.ltype with
  | .upper => decide (c.high > spec_line_price line (to_ms parse c.timestamp))
  | .lower => decide (c.low < spec_line_price line (to_ms parse c.timestamp))

/-- Spec-side, for C2: the penetration magnitude in percent,
`((high - linePrice) / linePrice) * 100` for an upper line and
`((linePrice - low) / linePrice) * 100` for a lower one. -/
def spec_magnitude (parse : String → Option Int) (line : Line) (c : Candle) : ℚ :=
  match line.ltype with
  | .upper =>
    ((c.high - spec_line_price line (to_ms parse c.timestamp)) /
      spec_line_price line (to_ms parse c.timestamp)) * 100
  | .lower =>
    ((spec_line_price line (to_ms parse c.timestamp) - c.low) /
      spec_line_price line (to_ms parse c.timestamp)) * 100

theorem penetrates_eq_spec (parse : String → Option Int) (line : Line) (c : Candle) :
    penetrates parse line c = spec_penetrates parse line c := by
  unfold penetrates spec_penetrates spec_line_price
  cases line.ltype <;> simp [qadd_eq, qmul_eq]

theorem penetrationPct_eq_spec (parse : String → Option Int) (line : Line) (c : Candle) :
    penetrationPct parse line c = spec_magnitude parse line c := by
  unfold penetrationPct spec_magnitude spec_line_price
  cases line.ltype <;> simp [qadd_eq, qmul_eq, qsub_eq, qdiv_eq]

theorem filterMap_ite_length {α β : Type} (l : List α) (p : α → Bool) (f : α → β) :
    (l.filterMap (fun c => if p c then some (f c) else none)).length = l.countP p := by
  induction l with
  | nil => rfl
  | cons hd tl ih =>
    rw [List.filterMap_cons, List.countP_cons]
    cases h : p hd <;> simp [h, ih]

theorem filterMap_ite_any {α β : Type} (l : List α) (p : α → Bool) (f : α → β)
    (q : β → Bool) :
    (l.filterMap (fun c => if p c then some (f c) else none)).any q =
      l.any (fun c => p c && q (f c)) := by
  induction l with
  | nil => rfl
  | cons hd tl ih =>
    rw [List.filterMap_cons, List.any_cons]
    cases h : p hd <;> simp [h, ih]

theorem between_eq_spec (parse : String → Option Int) (candles : List Candle)
    (line : Line) :
    candles.filter (fun c =>
      decide (min line.point1.timestamp line.point2.timestamp < to_ms parse c.timestamp) &&
      decide (to_ms parse c.timestamp < max line.point1.timestamp line.point2.timestamp)) =
    spec_between parse candles line := rfl

/-- C2: the penetration stage accepts a line iff the set of candles
strictly between the endpoints is empty, or else the number of
penetrating candles (high above / low below the interpolated line
price) does not exceed `max_penetrating_candles` and no single
penetration magnitude exceeds `max_penetration_pct`; equivalently, it
rejects iff the count exceeds the cap or some magnitude exceeds the
percentage cap.  The right-hand side is phrased entirely with the
spec-level definitions `spec_between` / `spec_penetrates` /
`spec_magnitude` over ordinary field arithmetic. -/
theorem c2_penetration_characterization (parse : String → Option Int)
    (conf : Config) (candles : List Candle) (line : Line) :
    check_line_penetration parse conf candles line = none ↔
      (spec_between parse candles line = [] ∨
       ((spec_between parse candles line).countP (spec_penetrates parse line) ≤
          conf.max_penetrating_candles ∧
        ∀ c ∈ spec_between parse candles line, spec_penetrates parse line c = true →
          spec_magnitude parse line c ≤ conf.max_penetration_pct)) := by
  unfold check_line_penetration
  by_cases hc : candles.isEmpty
  · have hnil : candles = [] := List.isEmpty_iff.mp hc
    subst hnil
    simp [spec_between]
  · rw [if_neg hc]
    dsimp only
    rw [between_eq_spec]
    by_cases hb : (spec_between parse candles line).isEmpty
    · rw [if_pos hb]
      have hnil : spec_between parse candles line = [] := List.isEmpty_iff.mp hb
      simp [hnil]
    · rw [if_neg hb]
      have hne : ¬ spec_between parse candles line = [] := by
        intro h
        exact hb (by simp [h])
      simp only [penetrates_eq_spec, penetrationPct_eq_spec]
      rw [filterMap_ite_length, filterMap_ite_any]
      split_ifs with h1 h2
      · simp only [reduceCtorEq, false_iff]
        push_neg
        exact ⟨hne, fun hle => absurd hle (by omega)⟩
      · rw [List.any_eq_true] at h2
        obtain ⟨c, hcmem, hcp⟩ := h2
        rw [Bool.and_eq_true, decide_eq_true_eq] at hcp
        simp only [reduceCtorEq, false_iff]
        push_neg
        exact ⟨hne, fun _ => ⟨c, hcmem, hcp.1, hcp.2⟩⟩
      · simp only [true_iff]
        refine Or.inr ⟨by omega, ?_⟩
        intro c hcmem hcp
        by_contra hgt
        exact h2 (List.any_eq_true.mpr ⟨c, hcmem,
          by rw [Bool.and_eq_true, decide_eq_true_eq]; exact ⟨hcp, not_le.mp hgt⟩⟩)

theorem create_line_fields (p1 p2 : Pivot) (l : Line)
    (h : create_line p1 p2 = some l) :
    l.point1 = p1 ∧ l.point2 = p2 ∧ l.point_ids = (p1.id, p2.id) ∧
    l.ltype = (if p1.ptype = .peak then .upper else .lower) := by
  unfold create_line at h
  split at h
  · exact absurd h (by simp)
  · rw [Option.some.injEq] at h
    subst h
    exact ⟨rfl, rfl, rfl, rfl⟩

theorem validate_tooClose (parse : String → Option Int) (conf : Config)
    (candles : List Candle) (l : Line)
    (hs : slopeCheckFails conf l = false)
    (hd : qdiv (((l.point2.timestamp - l.point1.timestamp).natAbs : ℚ))
        ((candle_interval_ms : Int) : ℚ) < conf.min_distance_candles) :
    validate_single_line parse conf candles l = some .tooClose := by
  unfold validate_single_line
  simp only [hs, Bool.false_eq_true, if_false]
  rw [if_pos hd]

/-- Pivots, config and the resulting line for the C3 scenario: two
troughs half a candle-width (450000 ms) apart, with a configured
`max_slope` that the pair's slope exceeds. -/
def p3a : Pivot := { id := 0, timestamp := 0, price := 100, ptype := .trough }

def p3b : Pivot := { id := 1, timestamp := 450000, price := 200, ptype := .trough }

def conf3 : Config :=
  { max_pivots := 5, max_age_ms := none,
    max_slope := some (Rat.divInt 1 100000000),
    min_distance_candles := 2, max_penetration_pct := Rat.divInt 3 10,
    max_penetrating_candles := 2 }

def line3 : Line :=
  { point1 := p3a, point2 := p3b, slope := Rat.divInt 1 4500,
    intercept := 100, ltype := .lower, point_ids := (0, 1) }

/-- C3, refuting part: for the claim's own scenario — two troughs
450000 ms apart, `min_distance_candles = 2` — but with a slope
exceeding the configured `max_slope`, validation rejects with the
slope reason, not the "too close" reason: the slope check runs first
and short-circuits. -/
theorem c3_counterexample :
    p3a.ptype = .trough ∧ p3b.ptype = .trough ∧
    (p3b.timestamp - p3a.timestamp).natAbs = 450000 ∧
    conf3.min_distance_candles = 2 ∧
    create_line p3a p3b = some line3 ∧
    conf3.max_slope = some (Rat.divInt 1 100000000) ∧
    qabs line3.slope > Rat.divInt 1 100000000 ∧
    validate_single_line parse0 conf3 [] line3 ≠ some .tooClose ∧
    validate_single_line parse0 conf3 [] line3 = some .slopeTooBig := by
  decide

/-- C3, amended: two trough pivots whose timestamps differ by half a
candle-width (450000 ms) always yield, with
`min_distance_candles = 2`, a "too close" rejection *provided the
slope stage passes* (no `max_slope` configured, or the slope within
the bound); when the slope exceeds a configured `max_slope` the line
is still rejected, but with the slope reason instead (see
`c3_counterexample`). -/
theorem c3_amended_spacing_rejection (parse : String → Option Int) (conf : Config)
    (candles : List Candle) (p1 p2 : Pivot) (l : Line)
    (h1 : p1.ptype = .trough) (h2 : p2.ptype = .trough)
    (hc : create_line p1 p2 = some l)
    (hd : (p2.timestamp - p1.timestamp).natAbs = 450000)
    (hm : conf.min_distance_candles = 2)
    (hs : conf.max_slope = none ∨ ∀ m, conf.max_slope = some m → qabs l.slope ≤ m) :
    validate_single_line parse conf candles l = some .tooClose := by
  obtain ⟨hp1, hp2, -, -⟩ := create_line_fields p1 p2 l hc
  have hsf : slopeCheckFails conf l = false := by
    unfold slopeCheckFails
    cases hms : conf.max_slope with
    | none => rfl
    | some m =>
      rcases hs with hs | hs
      · rw [hms] at hs
        exact absurd hs (by simp)
      · exact decide_eq_false (not_lt.mpr (hs m hms))
  refine validate_tooClose parse conf candles l hsf ?_
  rw [hp1, hp2, hd, hm]
  decide

def pW1 : Pivot := { id := 0, timestamp := 0, price := 100, ptype := .trough }

def pW2 : Pivot := { id := 1, timestamp := 450000, price := 100, ptype := .trough }

def conf3W : Config :=
  { max_pivots := 5, max_age_ms := none, max_slope := none,
    min_distance_candles := 2, max_penetration_pct := Rat.divInt 3 10,
    max_penetrating_candles := 2 }

def line3W : Line :=
  { point1 := pW1, point2 := pW2, slope := 0, intercept := 100,
    ltype := .lower, point_ids := (0, 1) }

theorem c3_amended_spacing_rejection_witness :
    (pW1.ptype = .trough ∧ pW2.ptype = .trough ∧
     create_line pW1 pW2 = some line3W ∧
     (pW2.timestamp - pW1.timestamp).natAbs = 450000 ∧
     conf3W.min_distance_candles = 2 ∧ conf3W.max_slope = none) ∧
    validate_single_line parse0 conf3W [] line3W = some .tooClose :=
  ⟨⟨by decide, by decide, by decide, by decide, by decide, rfl⟩,
    c3_amended_spacing_rejection parse0 conf3W [] pW1 pW2 line3W
      (by decide) (by decide) (by decide) (by decide) (by decide) (Or.inl rfl)⟩

/-- Every resident line passes the three-stage validation against the
state's own current candle window. -/
def all_lines_valid (parse : String → Option Int) (conf : Config)
    (st : DetectorState) : Prop :=
  (∀ l ∈ st.upper_lines, validate_single_line parse conf st.candles_list l = none) ∧
  (∀ l ∈ st.lower_lines, validate_single_line parse conf st.candles_list l = none)

instance (parse : String → Option Int) (conf : Config) (st : DetectorState) :
    Decidable (all_lines_valid parse conf st) := by
  unfold all_lines_valid
  infer_instance

theorem update_valid_lines_valid (parse : String → Option Int) (conf : Config)
    (st : DetectorState) :
    all_lines_valid parse conf (update_valid_lines parse conf st) := by
  constructor
  · intro l hl
    rw [update_valid_lines_upper] at hl
    have h := List.of_mem_filter hl
    rw [(update_valid_lines_frame parse conf st).2.2.1]
    exact of_decide_eq_true h
  · intro l hl
    rw [update_valid_lines_lower] at hl
    have h := List.of_mem_filter hl
    rw [(update_valid_lines_frame parse conf st).2.2.1]
    exact of_decide_eq_true h

theorem gen_core_valid (parse : String → Option Int) (conf : Config)
    (pid : Nat) (st : DetectorState)
    (h : (generate_new_lines_core parse conf pid st).2 ≠ []) :
    all_lines_valid parse conf (generate_new_lines_core parse conf pid st).1 := by
  unfold generate_new_lines_core at h ⊢
  cases hf : findNewPivot pid st with
  | none =>
    rw [hf] at h
    exact absurd rfl h
  | some pp =>
    obtain ⟨np, plist⟩ := pp
    rw [hf] at h
    dsimp only at h ⊢
    by_cases he : (genLoop np st.created_line_pairs plist).1.isEmpty
    · rw [if_pos he] at h
      exact absurd (List.isEmpty_iff.mp he) h
    · rw [if_neg he]
      exact update_valid_lines_valid parse conf _

/-- Records for the C1 scenario: two troughs four candle-widths apart
(their connecting line is valid when created), then a candle-only
record whose candle dives far below the line. -/
def c1r1 : Record :=
  { candle := some (mkCandle 0 101 99),
    pivot := some { timestamp := 0, price := 100, ptype := .trough } }

def c1r2 : Record :=
  { candle := some (mkCandle 3600000 101 99),
    pivot := some { timestamp := 3600000, price := 100, ptype := .trough } }

def c1r3 : Record :=
  { candle := some (mkCandle 1800000 101 50), pivot := none }

/-- C1, refuting part: after the candle-only record `c1r3`, the lower
line created by the first two pivots is still resident although it no
longer passes validation against the current candle window (the new
candle penetrates it by 50%): `_update_valid_lines` only runs when a
call generates at least one new candidate line, so candle-only
records leave the accepted-line set stale. -/
theorem c1_counterexample :
    (runRecords parse0 conf0 [c1r1, c1r2, c1r3] initState).lower_lines ≠ [] ∧
    ¬ all_lines_valid parse0 conf0
        (runRecords parse0 conf0 [c1r1, c1r2, c1r3] initState) := by
  constructor
  · decide
  · decide

/-- C1, amended: after every `add_pivot` call in which at least one
new candidate line was generated, every resident upper and lower line
passes the three-stage validation against the current candle window
(the full `_update_valid_lines` pass runs last in such calls).  Calls
that generate no candidate line — candle-only records, and pivot
arrivals whose eviction changed the window without new pairings — do
not re-validate, and the resident sets can go stale
(`c1_counterexample`). -/
theorem c1_amended_revalidation (parse : String → Option Int) (conf : Config)
    (rec : Record) (st : DetectorState) (hmp : 0 < conf.max_pivots)
    (hnew : (add_pivot_core parse conf rec st).newLines ≠ []) :
    all_lines_valid parse conf (add_pivot_core parse conf rec st).state := by
  cases hp : rec.pivot with
  | none =>
    exfalso
    apply hnew
    unfold add_pivot_core
    rw [hp]
  | some pv =>
    have hstate : (add_pivot_core parse conf rec st).state =
        (generate_new_lines_core parse conf (ingestCandle rec st).next_pivot_id
          (cleanup_old_pivots_core parse conf
            (appendPivotFull pv (ingestCandle rec st))).1).1 := by
      unfold add_pivot_core
      rw [hp]
    have hnewl : (add_pivot_core parse conf rec st).newLines =
        (generate_new_lines_core parse conf (ingestCandle rec st).next_pivot_id
          (cleanup_old_pivots_core parse conf
            (appendPivotFull pv (ingestCandle rec st))).1).2 := by
      unfold add_pivot_core
      rw [hp]
    rw [hstate]
    exact gen_core_valid parse conf _ _ (by rw [← hnewl]; exact hnew)

theorem c1_amended_revalidation_witness :
    (0 < conf0.max_pivots ∧
     (add_pivot_core parse0 conf0 c1r2
        (runRecords parse0 conf0 [c1r1] initState)).newLines ≠ []) ∧
    all_lines_valid parse0 conf0
      (add_pivot_core parse0 conf0 c1r2
        (runRecords parse0 conf0 [c1r1] initState)).state :=
  ⟨⟨by decide, by decide⟩,
    c1_amended_revalidation parse0 conf0 c1r2
      (runRecords parse0 conf0 [c1r1] initState) (by decide) (by decide)⟩

/-- The pivot ids currently resident in the peaks list. -/
def peakIds (st : DetectorState) : List Nat := st.peaks_list.map Pivot.id

/-- The pivot ids currently resident in the troughs list. -/
def troughIds (st : DetectorState) : List Nat := st.troughs_list.map Pivot.id

/-- The structural invariant maintained by every `add_pivot` call:
pivot ids are below the id counter, unique, and typed consistently
with their list; every resident line's endpoints are resident pivots
of the matching list; endpoint ids are stored in increasing order in
`point_ids`; and no two resident lines of the same list share a
`point_ids` pair. -/
structure DetInv (st : DetectorState) : Prop where
  peaks_lt : ∀ p ∈ st.peaks_list, p.id < st.next_pivot_id
  troughs_lt : ∀ p ∈ st.troughs_list, p.id < st.next_pivot_id
  peaks_type : ∀ p ∈ st.peaks_list, p.ptype = .peak
  troughs_type : ∀ p ∈ st.troughs_list, p.ptype = .trough
  peaks_nodup : (peakIds st).Nodup
  troughs_nodup : (troughIds st).Nodup
  pt_disjoint : ∀ i ∈ peakIds st, i ∉ troughIds st
  upper_mem : ∀ l ∈ st.upper_lines, l.point1.id ∈ peakIds st ∧ l.point2.id ∈ peakIds st
  lower_mem : ∀ l ∈ st.lower_lines, l.point1.id ∈ troughIds st ∧ l.point2.id ∈ troughIds st
  upper_lt : ∀ l ∈ st.upper_lines, l.point1.id < l.point2.id
  lower_lt : ∀ l ∈ st.lower_lines, l.point1.id < l.point2.id
  upper_pid : ∀ l ∈ st.upper_lines, l.point_ids = (l.point1.id, l.point2.id)
  lower_pid : ∀ l ∈ st.lower_lines, l.point_ids = (l.point1.id, l.point2.id)
  upper_nodup : (st.upper_lines.map Line.point_ids).Nodup
  lower_nodup : (st.lower_lines.map Line.point_ids).Nodup

theorem inv_init : DetInv initState := by
  constructor <;> simp [initState, peakIds, troughIds]

theorem inv_of_eq (st st' : DetectorState)
    (hp : st'.peaks_list = st.peaks_list) (ht : st'.troughs_list = st.troughs_list)
    (hu : st'.upper_lines = st.upper_lines) (hl : st'.lower_lines = st.lower_lines)
    (hn : st'.next_pivot_id = st.next_pivot_id) (h : DetInv st) : DetInv st' := by
  constructor <;>
    simp only [peakIds, troughIds, hp, ht, hu, hl, hn] <;>
    first
      | exact h.peaks_lt | exact h.troughs_lt
      | exact h.peaks_type | exact h.troughs_type
      | exact h.peaks_nodup | exact h.troughs_nodup
      | exact h.pt_disjoint
      | exact h.upper_mem | exact h.lower_mem
      | exact h.upper_lt | exact h.lower_lt
      | exact h.upper_pid | exact h.lower_pid
      | exact h.upper_nodup | exact h.lower_nodup

theorem evictList_sublist (conf : Config) (l : List Pivot) :
    (evictList conf l).2.Sublist l := by
  unfold evictList
  dsimp only
  split
  · exact List.drop_sublist _ _
  · split
    · exact List.drop_sublist _ _
    · exact (List.filter_sublist _).trans (List.drop_sublist _ _)

theorem evictList_length (conf : Config) (l : List Pivot) :
    (evictList conf l).2.length ≤ conf.max_pivots := by
  have hdrop : (l.drop (l.length - conf.max_pivots)).length ≤ conf.max_pivots := by
    rw [List.length_drop]
    omega
  unfold evictList
  dsimp only
  split
  · exact hdrop
  · split
    · exact hdrop
    · exact le_trans (List.length_filter_le _ _) hdrop

theorem evictList_removed_mem (conf : Config) (l : List Pivot) :
    ∀ e ∈ (evictList conf l).1, e ∈ l.map Pivot.id := by
  have htake : ∀ e ∈ (l.take (l.length - conf.max_pivots)).map Pivot.id,
      e ∈ l.map Pivot.id :=
    fun e he => (List.Sublist.map Pivot.id (List.take_sublist _ _)).mem he
  unfold evictList
  dsimp only
  split
  · exact htake
  · split
    · exact htake
    · intro e he
      rcases List.mem_append.mp he with he | he
      · exact htake e he
      · refine (List.Sublist.map Pivot.id ?_).mem he
        exact (List.filter_sublist _).trans (List.drop_sublist _ _)

theorem mem_kept_of_not_removed (conf : Config) (l : List Pivot) :
    ∀ i ∈ l.map Pivot.id, i ∉ (evictList conf l).1 →
      i ∈ (evictList conf l).2.map Pivot.id := by
  intro i hi hnr
  obtain ⟨p, hp, hpi⟩ := List.mem_map.mp hi
  have hsplit : p ∈ l.take (l.length - conf.max_pivots) ∨
      p ∈ l.drop (l.length - conf.max_pivots) := by
    rw [← List.mem_append, List.take_append_drop]
    exact hp
  unfold evictList at hnr ⊢
  dsimp only at hnr ⊢
  split at hnr
  · rcases hsplit with hp1 | hp1
    · exact absurd (List.mem_map.mpr ⟨p, hp1, hpi⟩) hnr
    · exact List.mem_map.mpr ⟨p, hp1, hpi⟩
  · rename_i maxAge heq
    split at hnr
    · rcases hsplit with hp1 | hp1
      · exact absurd (List.mem_map.mpr ⟨p, hp1, hpi⟩) hnr
      · exact List.mem_map.mpr ⟨p, hp1, hpi⟩
    · rename_i latest hlast
      rcases hsplit with hp1 | hp1
      · exact absurd (List.mem_append.mpr (Or.inl (List.mem_map.mpr ⟨p, hp1, hpi⟩))) hnr
      · by_cases hcut : p.timestamp < latest.timestamp - maxAge
        · exact absurd (List.mem_append.mpr (Or.inr (List.mem_map.mpr
            ⟨p, List.mem_filter.mpr ⟨hp1, by simpa using hcut⟩, hpi⟩))) hnr
        · exact List.mem_map.mpr ⟨p, List.mem_filter.mpr ⟨hp1, by simpa using hcut⟩, hpi⟩

theorem evictList_removed_not_kept (conf : Config) (l : List Pivot)
    (hnd : (l.map Pivot.id).Nodup) :
    ∀ e ∈ (evictList conf l).1, e ∉ (evictList conf l).2.map Pivot.id := by
  have hinj := List.inj_on_of_nodup_map hnd
  have hnd2 : ((l.take (l.length - conf.max_pivots)).map Pivot.id ++
      (l.drop (l.length - conf.max_pivots)).map Pivot.id).Nodup := by
    rw [← List.map_append, List.take_append_drop]
    exact hnd
  have htake : ∀ e ∈ (l.take (l.length - conf.max_pivots)).map Pivot.id,
      e ∉ (l.drop (l.length - conf.max_pivots)).map Pivot.id := by
    intro e he hk
    exact (List.disjoint_of_nodup_append hnd2) he hk
  unfold evictList
  dsimp only
  split
  · exact htake
  · split
    · exact htake
    · rename_i maxAge heq latest hlast
      intro e he hk
      obtain ⟨q, hq, hqi⟩ := List.mem_map.mp hk
      have hqmem : q ∈ l.drop (l.length - conf.max_pivots) := List.mem_of_mem_filter hq
      have hqpred := List.of_mem_filter hq
      rcases List.mem_append.mp he with he1 | he2
      · exact htake e he1 (List.mem_map.mpr ⟨q, hqmem, hqi⟩)
      · obtain ⟨p, hp, hpi⟩ := List.mem_map.mp he2
        have hppred := List.of_mem_filter hp
        have hpmem : p ∈ l.drop (l.length - conf.max_pivots) := List.mem_of_mem_filter hp
        have hpq : p = q := hinj (List.mem_of_mem_drop hpmem) (List.mem_of_mem_drop hqmem)
          (by rw [hpi, hqi])
        rw [hpq] at hppred
        simp at hqpred hppred
        omega

theorem inv_ingestCandle (rec : Record) (st : DetectorState) (h : DetInv st) :
    DetInv (ingestCandle rec st) :=
  inv_of_eq st _ (ingestCandle_frame rec st).1 (ingestCandle_frame rec st).2.1
    (ingestCandle_frame rec st).2.2.1 (ingestCandle_frame rec st).2.2.2.1
    (ingestCandle_frame rec st).2.2.2.2.1 h

theorem inv_appendPivotFull (pv : PivotIn) (st : DetectorState) (h : DetInv st) :
    DetInv (appendPivotFull pv st) := by
  unfold appendPivotFull
  cases hty : pv.ptype with
  | peak =>
    refine ⟨?_, ?_, ?_, ?_, ?_, ?_, ?_, ?_, ?_, ?_, ?_, ?_, ?_, ?_, ?_⟩ <;>
      simp only [peakIds, troughIds, List.map_append, List.map_cons, List.map_nil]
    · intro p hp
      rcases List.mem_append.mp hp with hp | hp
      · exact Nat.lt_succ_of_lt (h.peaks_lt p hp)
      · simp at hp
        simp [hp]
    · intro p hp
      exact Nat.lt_succ_of_lt (h.troughs_lt p hp)
    · intro p hp
      rcases List.mem_append.mp hp with hp | hp
      · exact h.peaks_type p hp
      · simp at hp
        simp [hp, hty]
    · exact h.troughs_type
    · rw [List.nodup_append]
      refine ⟨h.peaks_nodup, List.nodup_singleton _, ?_⟩
      intro a ha hb
      simp at hb
      subst hb
      obtain ⟨p, hp, hpi⟩ := List.mem_map.mp ha
      have := h.peaks_lt p hp
      omega
    · exact h.troughs_nodup
    · intro i hi
      rcases List.mem_append.mp hi with hi | hi
      · exact h.pt_disjoint i hi
      · simp at hi
        subst hi
        intro hmem
        obtain ⟨t, ht, hti⟩ := List.mem_map.mp hmem
        have := h.troughs_lt t ht
        omega
    · intro l hl
      exact ⟨List.mem_append_left _ (h.upper_mem l hl).1,
        List.mem_append_left _ (h.upper_mem l hl).2⟩
    · exact h.lower_mem
    · exact h.upper_lt
    · exact h.lower_lt
    · exact h.upper_pid
    · exact h.lower_pid
    · exact h.upper_nodup
    · exact h.lower_nodup
  | trough =>
    refine ⟨?_, ?_, ?_, ?_, ?_, ?_, ?_, ?_, ?_, ?_, ?_, ?_, ?_, ?_, ?_⟩ <;>
      simp only [peakIds, troughIds, List.map_append, List.map_cons, List.map_nil]
    · intro p hp
      exact Nat.lt_succ_of_lt (h.peaks_lt p hp)
    · intro p hp
      rcases List.mem_append.mp hp with hp | hp
      · exact Nat.lt_succ_of_lt (h.troughs_lt p hp)
      · simp at hp
        simp [hp]
    · exact h.peaks_type
    · intro p hp
      rcases List.mem_append.mp hp with hp | hp
      · exact h.troughs_type p hp
      · simp at hp
        simp [hp, hty]
    · exact h.peaks_nodup
    · rw [List.nodup_append]
      refine ⟨h.troughs_nodup, List.nodup_singleton _, ?_⟩
      intro a ha hb
      simp at hb
      subst hb
      obtain ⟨t, ht, hti⟩ := List.mem_map.mp ha
      have := h.troughs_lt t ht
      omega
    · intro i hi hmem
      rcases List.mem_append.mp hmem with hmem | hmem
      · exact h.pt_disjoint i hi hmem
      · simp at hmem
        subst hmem
        obtain ⟨p, hp, hpi⟩ := List.mem_map.mp hi
        have := h.peaks_lt p hp
        omega
    · exact h.upper_mem
    · intro l hl
      exact ⟨List.mem_append_left _ (h.lower_mem l hl).1,
        List.mem_append_left _ (h.lower_mem l hl).2⟩
    · exact h.upper_lt
    · exact h.lower_lt
    · exact h.upper_pid
    · exact h.lower_pid
    · exact h.upper_nodup
    · exact h.lower_nodup

theorem cleanup_core_removed (parse : String → Option Int) (conf : Config)
    (st : DetectorState) :
    (cleanup_old_pivots_core parse conf st).2 =
      (evictList conf st.peaks_list).1 ++ (evictList conf st.troughs_list).1 := by
  unfold cleanup_old_pivots_core
  dsimp only
  split <;> rfl

theorem cleanup_core_upper (parse : String → Option Int) (conf : Config)
    (st : DetectorState) :
    (cleanup_old_pivots_core parse conf st).1.upper_lines =
      st.upper_lines.filter (fun l =>
        !(decide (l.point1.id ∈ (cleanup_old_pivots_core parse conf st).2) ||
          decide (l.point2.id ∈ (cleanup_old_pivots_core parse conf st).2))) := by
  unfold cleanup_old_pivots_core
  dsimp only
  split
  · rename_i hemp
    rw [List.isEmpty_iff.mp hemp]
    simp
  · rw [(cleanup_old_candles_frame _ _).2.2.1, cleanup_old_lines_upper]

theorem cleanup_core_lower (parse : String → Option Int) (conf : Config)
    (st : DetectorState) :
    (cleanup_old_pivots_core parse conf st).1.lower_lines =
      st.lower_lines.filter (fun l =>
        !(decide (l.point1.id ∈ (cleanup_old_pivots_core parse conf st).2) ||
          decide (l.point2.id ∈ (cleanup_old_pivots_core parse conf st).2))) := by
  unfold cleanup_old_pivots_core
  dsimp only
  split
  · rename_i hemp
    rw [List.isEmpty_iff.mp hemp]
    simp
  · rw [(cleanup_old_candles_frame _ _).2.2.2.1, cleanup_old_lines_lower]

theorem inv_cleanup_core (parse : String → Option Int) (conf : Config)
    (st : DetectorState) (h : DetInv st) :
    DetInv (cleanup_old_pivots_core parse conf st).1 ∧
    ∀ e ∈ (cleanup_old_pivots_core parse conf st).2,
      e < st.next_pivot_id ∧
      e ∉ peakIds (cleanup_old_pivots_core parse conf st).1 ∧
      e ∉ troughIds (cleanup_old_pivots_core parse conf st).1 := by
  have hpeaks := cleanup_core_peaks parse conf st
  have htroughs := cleanup_core_troughs parse conf st
  have hnext := cleanup_core_next parse conf st
  have hupper := cleanup_core_upper parse conf st
  have hlower := cleanup_core_lower parse conf st
  have hrem := cleanup_core_removed parse conf st
  have hpsub : (cleanup_old_pivots_core parse conf st).1.peaks_list.Sublist
      st.peaks_list := by
    rw [hpeaks]; exact evictList_sublist conf st.peaks_list
  have htsub : (cleanup_old_pivots_core parse conf st).1.troughs_list.Sublist
      st.troughs_list := by
    rw [htroughs]; exact evictList_sublist conf st.troughs_list
  have hpid : ∀ i, i ∈ peakIds (cleanup_old_pivots_core parse conf st).1 →
      i ∈ peakIds st := by
    intro i hi
    exact (List.Sublist.map Pivot.id hpsub).mem hi
  have htid : ∀ i, i ∈ troughIds (cleanup_old_pivots_core parse conf st).1 →
      i ∈ troughIds st := by
    intro i hi
    exact (List.Sublist.map Pivot.id htsub).mem hi
  constructor
  · refine ⟨?_, ?_, ?_, ?_, ?_, ?_, ?_, ?_, ?_, ?_, ?_, ?_, ?_, ?_, ?_⟩
    · intro p hp
      rw [hnext]
      exact h.peaks_lt p (hpsub.mem hp)
    · intro p hp
      rw [hnext]
      exact h.troughs_lt p (htsub.mem hp)
    · intro p hp
      exact h.peaks_type p (hpsub.mem hp)
    · intro p hp
      exact h.troughs_type p (htsub.mem hp)
    · exact h.peaks_nodup.sublist (List.Sublist.map Pivot.id hpsub)
    · exact h.troughs_nodup.sublist (List.Sublist.map Pivot.id htsub)
    · intro i hi hmem
      exact h.pt_disjoint i (hpid i hi) (htid i hmem)
    · intro l hl
      rw [hupper] at hl
      have hmem := List.mem_of_mem_filter hl
      have hpred := List.of_mem_filter hl
      simp only [Bool.not_eq_eq_eq_not, Bool.not_true, Bool.or_eq_false_iff,
        decide_eq_false_iff_not] at hpred
      have h1 := (h.upper_mem l hmem).1
      have h2 := (h.upper_mem l hmem).2
      rw [hrem] at hpred
      constructor
      · simp only [peakIds]
        rw [hpeaks]
        exact mem_kept_of_not_removed conf st.peaks_list l.point1.id h1
          (fun hin => hpred.1 (List.mem_append_left _ hin))
      · simp only [peakIds]
        rw [hpeaks]
        exact mem_kept_of_not_removed conf st.peaks_list l.point2.id h2
          (fun hin => hpred.2 (List.mem_append_left _ hin))
    · intro l hl
      rw [hlower] at hl
      have hmem := List.mem_of_mem_filter hl
      have hpred := List.of_mem_filter hl
      simp only [Bool.not_eq_eq_eq_not, Bool.not_true, Bool.or_eq_false_iff,
        decide_eq_false_iff_not] at hpred
      have h1 := (h.lower_mem l hmem).1
      have h2 := (h.lower_mem l hmem).2
      rw [hrem] at hpred
      constructor
      · simp only [troughIds]
        rw [htroughs]
        exact mem_kept_of_not_removed conf st.troughs_list l.point1.id h1
          (fun hin => hpred.1 (List.mem_append_right _ hin))
      · simp only [troughIds]
        rw [htroughs]
        exact mem_kept_of_not_removed conf st.troughs_list l.point2.id h2
          (fun hin => hpred.2 (List.mem_append_right _ hin))
    · intro l hl
      rw [hupper] at hl
      exact h.upper_lt l (List.mem_of_mem_filter hl)
    · intro l hl
      rw [hlower] at hl
      exact h.lower_lt l (List.mem_of_mem_filter hl)
    · intro l hl
      rw [hupper] at hl
      exact h.upper_pid l (List.mem_of_mem_filter hl)
    · intro l hl
      rw [hlower] at hl
      exact h.lower_pid l (List.mem_of_mem_filter hl)
    · rw [hupper]
      exact h.upper_nodup.sublist (List.Sublist.map Line.point_ids
        (List.filter_sublist _))
    · rw [hlower]
      exact h.lower_nodup.sublist (List.Sublist.map Line.point_ids
        (List.filter_sublist _))
  · intro e he
    rw [hrem] at he
    rcases List.mem_append.mp he with he | he
    · have hein : e ∈ peakIds st := evictList_removed_mem conf st.peaks_list e he
      obtain ⟨p, hp, hpi⟩ := List.mem_map.mp hein
      refine ⟨hpi ▸ h.peaks_lt p hp, ?_, ?_⟩
      · simp only [peakIds]
        rw [hpeaks]
        exact evictList_removed_not_kept conf st.peaks_list h.peaks_nodup e he
      · intro hmem
        exact h.pt_disjoint e hein (htid e hmem)
    · have hein : e ∈ troughIds st := evictList_removed_mem conf st.troughs_list e he
      obtain ⟨p, hp, hpi⟩ := List.mem_map.mp hein
      refine ⟨hpi ▸ h.troughs_lt p hp, ?_, ?_⟩
      · intro hmem
        exact h.pt_disjoint e (hpid e hmem) hein
      · simp only [troughIds]
        rw [htroughs]
        exact evictList_removed_not_kept conf st.troughs_list h.troughs_nodup e he

theorem setAdd_mem_of_mem (s : List (Nat × Nat)) (x y : Nat × Nat) (h : x ∈ s) :
    x ∈ setAdd s y := by
  unfold setAdd
  split
  · exact h
  · exact List.mem_append_left _ h

theorem setAdd_mem_self (s : List (Nat × Nat)) (y : Nat × Nat) : y ∈ setAdd s y := by
  unfold setAdd
  split
  · assumption
  · exact List.mem_append_right _ (List.mem_singleton.mpr rfl)

theorem genLoop_mem (np : Pivot) (pairs : List (Nat × Nat)) (lst : List Pivot) :
    ∀ l ∈ (genLoop np pairs lst).1,
      ∃ old ∈ lst, old.id ≠ np.id ∧ create_line old np = some l := by
  induction lst generalizing pairs with
  | nil =>
    intro l hl
    exact absurd hl (by simp [genLoop])
  | cons old rest ih =>
    intro l hl
    unfold genLoop at hl
    by_cases h1 : old.id = np.id
    · rw [if_pos h1] at hl
      obtain ⟨o, ho, hne, hcl⟩ := ih pairs l hl
      exact ⟨o, List.mem_cons_of_mem _ ho, hne, hcl⟩
    · rw [if_neg h1] at hl
      by_cases h2 : sortPair old.id np.id ∈ pairs
      · rw [if_pos h2] at hl
        obtain ⟨o, ho, hne, hcl⟩ := ih pairs l hl
        exact ⟨o, List.mem_cons_of_mem _ ho, hne, hcl⟩
      · rw [if_neg h2] at hl
        cases hcl : create_line old np with
        | none =>
          rw [hcl] at hl
          obtain ⟨o, ho, hne, hcl2⟩ := ih pairs l hl
          exact ⟨o, List.mem_cons_of_mem _ ho, hne, hcl2⟩
        | some line =>
          rw [hcl] at hl
          rcases List.mem_cons.mp hl with hl | hl
          · exact ⟨old, List.mem_cons_self _ _, h1, by rw [hcl, hl]⟩
          · obtain ⟨o, ho, hne, hcl2⟩ := ih (setAdd pairs (sortPair old.id np.id)) l hl
            exact ⟨o, List.mem_cons_of_mem _ ho, hne, hcl2⟩

theorem genLoop_fresh (np : Pivot) (pairs : List (Nat × Nat)) (lst : List Pivot)
    (hle : ∀ p ∈ lst, p.id ≤ np.id) :
    ∀ l ∈ (genLoop np pairs lst).1, l.point_ids ∉ pairs := by
  induction lst generalizing pairs with
  | nil =>
    intro l hl
    exact absurd hl (by simp [genLoop])
  | cons old rest ih =>
    have hle' : ∀ p ∈ rest, p.id ≤ np.id :=
      fun p hp => hle p (List.mem_cons_of_mem _ hp)
    intro l hl
    unfold genLoop at hl
    by_cases h1 : old.id = np.id
    · rw [if_pos h1] at hl
      exact ih pairs hle' l hl
    · rw [if_neg h1] at hl
      by_cases h2 : sortPair old.id np.id ∈ pairs
      · rw [if_pos h2] at hl
        exact ih pairs hle' l hl
      · rw [if_neg h2] at hl
        cases hcl : create_line old np with
        | none =>
          rw [hcl] at hl
          exact ih pairs hle' l hl
        | some line =>
          rw [hcl] at hl
          rcases List.mem_cons.mp hl with hl | hl
          · have hpid := (create_line_fields old np line hcl).2.2.1
            have hsp : sortPair old.id np.id = (old.id, np.id) := by
              unfold sortPair
              rw [if_pos (hle old (List.mem_cons_self _ _))]
            rw [hl, hpid, ← hsp]
            exact h2
          · intro hmem
            exact ih (setAdd pairs (sortPair old.id np.id)) hle' l hl
              (setAdd_mem_of_mem _ _ _ hmem)

theorem genLoop_nodup (np : Pivot) (pairs : List (Nat × Nat)) (lst : List Pivot)
    (hle : ∀ p ∈ lst, p.id ≤ np.id) :
    ((genLoop np pairs lst).1.map Line.point_ids).Nodup := by
  induction lst generalizing pairs with
  | nil => simp [genLoop]
  | cons old rest ih =>
    have hle' : ∀ p ∈ rest, p.id ≤ np.id :=
      fun p hp => hle p (List.mem_cons_of_mem _ hp)
    unfold genLoop
    by_cases h1 : old.id = np.id
    · rw [if_pos h1]
      exact ih pairs hle'
    · rw [if_neg h1]
      by_cases h2 : sortPair old.id np.id ∈ pairs
      · rw [if_pos h2]
        exact ih pairs hle'
      · rw [if_neg h2]
        cases hcl : create_line old np with
        | none => exact ih pairs hle'
        | some line =>
          dsimp only
          rw [List.map_cons, List.nodup_cons]
          constructor
          · intro hmem
            obtain ⟨l', hl', hpe⟩ := List.mem_map.mp hmem
            have hfresh := genLoop_fresh np (setAdd pairs (sortPair old.id np.id))
              rest hle' l' hl'
            have hpid := (create_line_fields old np line hcl).2.2.1
            have hsp : sortPair old.id np.id = (old.id, np.id) := by
              unfold sortPair
              rw [if_pos (hle old (List.mem_cons_self _ _))]
            apply hfresh
            rw [hpe, hpid, ← hsp]
            exact setAdd_mem_self _ _
          · exact ih (setAdd pairs (sortPair old.id np.id)) hle'

theorem findNewPivot_cases (pid : Nat) (st : DetectorState)
    (pp : Pivot × List Pivot) (h : findNewPivot pid st = some pp) :
    (pp.2 = st.peaks_list ∧ pp.1 ∈ st.peaks_list ∧ pp.1.id = pid) ∨
    (pp.2 = st.troughs_list ∧ pp.1 ∈ st.troughs_list ∧ pp.1.id = pid) := by
  unfold findNewPivot at h
  cases hf1 : st.peaks_list.find? (fun p => decide (p.id = pid)) with
  | some p =>
    rw [hf1] at h
    rw [Option.some.injEq] at h
    subst h
    refine Or.inl ⟨rfl, List.mem_of_find?_eq_some hf1, ?_⟩
    have := List.find?_some hf1
    exact of_decide_eq_true this
  | none =>
    rw [hf1] at h
    cases hf2 : st.troughs_list.find? (fun t => decide (t.id = pid)) with
    | some t =>
      rw [hf2] at h
      rw [Option.some.injEq] at h
      subst h
      refine Or.inr ⟨rfl, List.mem_of_find?_eq_some hf2, ?_⟩
      have := List.find?_some hf2
      exact of_decide_eq_true this
    | none =>
      rw [hf2] at h
      exact absurd h (by simp)

theorem inv_update_valid (parse : String → Option Int) (conf : Config)
    (st : DetectorState) (h : DetInv st) :
    DetInv (update_valid_lines parse conf st) := by
  have hupper := update_valid_lines_upper parse conf st
  have hlower := update_valid_lines_lower parse conf st
  have hframe := update_valid_lines_frame parse conf st
  refine ⟨?_, ?_, ?_, ?_, ?_, ?_, ?_, ?_, ?_, ?_, ?_, ?_, ?_, ?_, ?_⟩ <;>
    simp only [peakIds, troughIds, hframe.1, hframe.2.1, hframe.2.2.2,
      hupper, hlower]
  · exact h.peaks_lt
  · exact h.troughs_lt
  · exact h.peaks_type
  · exact h.troughs_type
  · exact h.peaks_nodup
  · exact h.troughs_nodup
  · exact h.pt_disjoint
  · intro l hl
    exact h.upper_mem l (List.mem_of_mem_filter hl)
  · intro l hl
    exact h.lower_mem l (List.mem_of_mem_filter hl)
  · intro l hl
    exact h.upper_lt l (List.mem_of_mem_filter hl)
  · intro l hl
    exact h.lower_lt l (List.mem_of_mem_filter hl)
  · intro l hl
    exact h.upper_pid l (List.mem_of_mem_filter hl)
  · intro l hl
    exact h.lower_pid l (List.mem_of_mem_filter hl)
  · exact h.upper_nodup.sublist (List.Sublist.map Line.point_ids (List.filter_sublist _))
  · exact h.lower_nodup.sublist (List.Sublist.map Line.point_ids (List.filter_sublist _))

theorem inv_gen_core (parse : String → Option Int) (conf : Config) (pid : Nat)
    (st : DetectorState) (h : DetInv st)
    (hnext : st.next_pivot_id = pid + 1)
    (hup2 : ∀ l ∈ st.upper_lines, l.point2.id < pid)
    (hlo2 : ∀ l ∈ st.lower_lines, l.point2.id < pid) :
    DetInv (generate_new_lines_core parse conf pid st).1 := by
  unfold generate_new_lines_core
  cases hf : findNewPivot pid st with
  | none => exact h
  | some pp =>
    obtain ⟨np, plist⟩ := pp
    dsimp only
    rcases findNewPivot_cases pid st (np, plist) hf with
      ⟨hpl, hnpmem, hnpid⟩ | ⟨hpl, hnpmem, hnpid⟩ <;> subst hpl <;>
      dsimp only at hnpmem hnpid
    · -- the new pivot is a peak: all generated lines are upper lines
      have hle : ∀ p ∈ st.peaks_list, p.id ≤ np.id := by
        intro p hp
        have := h.peaks_lt p hp
        rw [hnext] at this
        omega
      have hprops : ∀ l ∈ (genLoop np st.created_line_pairs st.peaks_list).1,
          l.point1 ∈ st.peaks_list ∧ l.point2 = np ∧ l.point1.id < l.point2.id ∧
          l.point_ids = (l.point1.id, l.point2.id) ∧ l.ltype = .upper := by
        intro l hl
        obtain ⟨old, hold, hne, hcl⟩ := genLoop_mem np st.created_line_pairs
          st.peaks_list l hl
        obtain ⟨hp1, hp2, hpid, hty⟩ := create_line_fields old np l hcl
        have hole := hle old hold
        refine ⟨by rw [hp1]; exact hold, hp2, ?_, ?_, ?_⟩
        · rw [hp1, hp2]
          omega
        · rw [hpid, hp1, hp2]
        · rw [hty, if_pos (h.peaks_type old hold)]
      have hnodup_new := genLoop_nodup np st.created_line_pairs st.peaks_list hle
      have hst1 : DetInv
          { st with
            upper_lines := st.upper_lines ++
              (genLoop np st.created_line_pairs st.peaks_list).1.filter
                (fun l => decide (l.ltype = .upper))
            lower_lines := st.lower_lines ++
              (genLoop np st.created_line_pairs st.peaks_list).1.filter
                (fun l => decide (l.ltype = .lower))
            created_line_pairs := (genLoop np st.created_line_pairs st.peaks_list).2 } := by
        refine ⟨h.peaks_lt, h.troughs_lt, h.peaks_type, h.troughs_type,
          h.peaks_nodup, h.troughs_nodup, h.pt_disjoint, ?_, ?_, ?_, ?_, ?_, ?_, ?_, ?_⟩
        · intro l hl
          rcases List.mem_append.mp hl with hl | hl
          · exact h.upper_mem l hl
          · have hnew := List.mem_of_mem_filter hl
            obtain ⟨hm1, hm2, -, -, -⟩ := hprops l hnew
            constructor
            · exact List.mem_map.mpr ⟨l.point1, hm1, rfl⟩
            · rw [hm2]
              exact List.mem_map.mpr ⟨np, hnpmem, rfl⟩
        · intro l hl
          rcases List.mem_append.mp hl with hl | hl
          · exact h.lower_mem l hl
          · have hnew := List.mem_of_mem_filter hl
            have hlow := List.of_mem_filter hl
            simp only [decide_eq_true_eq] at hlow
            have hupp := (hprops l hnew).2.2.2.2
            rw [hupp] at hlow
            exact absurd hlow (by simp)
        · intro l hl
          rcases List.mem_append.mp hl with hl | hl
          · exact h.upper_lt l hl
          · exact (hprops l (List.mem_of_mem_filter hl)).2.2.1
        · intro l hl
          rcases List.mem_append.mp hl with hl | hl
          · exact h.lower_lt l hl
          · have hlow := List.of_mem_filter hl
            simp only [decide_eq_true_eq] at hlow
            have hupp := (hprops l (List.mem_of_mem_filter hl)).2.2.2.2
            rw [hupp] at hlow
            exact absurd hlow (by simp)
        · intro l hl
          rcases List.mem_append.mp hl with hl | hl
          · exact h.upper_pid l hl
          · exact (hprops l (List.mem_of_mem_filter hl)).2.2.2.1
        · intro l hl
          rcases List.mem_append.mp hl with hl | hl
          · exact h.lower_pid l hl
          · have hlow := List.of_mem_filter hl
            simp only [decide_eq_true_eq] at hlow
            have hupp := (hprops l (List.mem_of_mem_filter hl)).2.2.2.2
            rw [hupp] at hlow
            exact absurd hlow (by simp)
        · rw [List.map_append, List.nodup_append]
          refine ⟨h.upper_nodup,
            hnodup_new.sublist (List.Sublist.map Line.point_ids (List.filter_sublist _)),
            ?_⟩
          intro x hx hx'
          obtain ⟨l, hl, hxe⟩ := List.mem_map.mp hx
          obtain ⟨l', hl', hxe'⟩ := List.mem_map.mp hx'
          have hnew := List.mem_of_mem_filter hl'
          obtain ⟨-, hm2, -, hpid', -⟩ := hprops l' hnew
          have hsnd : l.point_ids.2 = l.point2.id := by
            rw [h.upper_pid l hl]
          have hsnd' : l'.point_ids.2 = pid := by
            rw [hpid', hm2, hnpid]
          have hlt := hup2 l hl
          rw [← hxe'] at hxe
          rw [← hxe] at hsnd'
          omega
        · rw [List.map_append, List.nodup_append]
          refine ⟨h.lower_nodup,
            hnodup_new.sublist (List.Sublist.map Line.point_ids (List.filter_sublist _)),
            ?_⟩
          intro x hx hx'
          obtain ⟨l', hl', hxe'⟩ := List.mem_map.mp hx'
          have hlow := List.of_mem_filter hl'
          simp only [decide_eq_true_eq] at hlow
          have hupp := (hprops l' (List.mem_of_mem_filter hl')).2.2.2.2
          rw [hupp] at hlow
          exact absurd hlow (by simp)
      by_cases he : (genLoop np st.created_line_pairs st.peaks_list).1.isEmpty
      · rw [if_pos he]
        exact hst1
      · rw [if_neg he]
        exact inv_update_valid parse conf _ hst1
    · -- the new pivot is a trough: all generated lines are lower lines
      have hle : ∀ p ∈ st.troughs_list, p.id ≤ np.id := by
        intro p hp
        have := h.troughs_lt p hp
        rw [hnext] at this
        omega
      have hprops : ∀ l ∈ (genLoop np st.created_line_pairs st.troughs_list).1,
          l.point1 ∈ st.troughs_list ∧ l.point2 = np ∧ l.point1.id < l.point2.id ∧
          l.point_ids = (l.point1.id, l.point2.id) ∧ l.ltype = .lower := by
        intro l hl
        obtain ⟨old, hold, hne, hcl⟩ := genLoop_mem np st.created_line_pairs
          st.troughs_list l hl
        obtain ⟨hp1, hp2, hpid, hty⟩ := create_line_fields old np l hcl
        have hole := hle old hold
        refine ⟨by rw [hp1]; exact hold, hp2, ?_, ?_, ?_⟩
        · rw [hp1, hp2]
          omega
        · rw [hpid, hp1, hp2]
        · rw [hty, if_neg]
          rw [h.troughs_type old hold]
          simp
      have hnodup_new := genLoop_nodup np st.created_line_pairs st.troughs_list hle
      have hst1 : DetInv
          { st with
            upper_lines := st.upper_lines ++
              (genLoop np st.created_line_pairs st.troughs_list).1.filter
                (fun l => decide (l.ltype = .upper))
            lower_lines := st.lower_lines ++
              (genLoop np st.created_line_pairs st.troughs_list).1.filter
                (fun l => decide (l.ltype = .lower))
            created_line_pairs := (genLoop np st.created_line_pairs st.troughs_list).2 } := by
        refine ⟨h.peaks_lt, h.troughs_lt, h.peaks_type, h.troughs_type,
          h.peaks_nodup, h.troughs_nodup, h.pt_disjoint, ?_, ?_, ?_, ?_, ?_, ?_, ?_, ?_⟩
        · intro l hl
          rcases List.mem_append.mp hl with hl | hl
          · exact h.upper_mem l hl
          · have hupp := List.of_mem_filter hl
            simp only [decide_eq_true_eq] at hupp
            have hlow := (hprops l (List.mem_of_mem_filter hl)).2.2.2.2
            rw [hlow] at hupp
            exact absurd hupp (by simp)
        · intro l hl
          rcases List.mem_append.mp hl with hl | hl
          · exact h.lower_mem l hl
          · have hnew := List.mem_of_mem_filter hl
            obtain ⟨hm1, hm2, -, -, -⟩ := hprops l hnew
            constructor
            · exact List.mem_map.mpr ⟨l.point1, hm1, rfl⟩
            · rw [hm2]
              exact List.mem_map.mpr ⟨np, hnpmem, rfl⟩
        · intro l hl
          rcases List.mem_append.mp hl with hl | hl
          · exact h.upper_lt l hl
          · have hupp := List.of_mem_filter hl
            simp only [decide_eq_true_eq] at hupp
            have hlow := (hprops l (List.mem_of_mem_filter hl)).2.2.2.2
            rw [hlow] at hupp
            exact absurd hupp (by simp)
        · intro l hl
          rcases List.mem_append.mp hl with hl | hl
          · exact h.lower_lt l hl
          · exact (hprops l (List.mem_of_mem_filter hl)).2.2.1
        · intro l hl
          rcases List.mem_append.mp hl with hl | hl
          · exact h.upper_pid l hl
          · have hupp := List.of_mem_filter hl
            simp only [decide_eq_true_eq] at hupp
            have hlow := (hprops l (List.mem_of_mem_filter hl)).2.2.2.2
            rw [hlow] at hupp
            exact absurd hupp (by simp)
        · intro l hl
          rcases List.mem_append.mp hl with hl | hl
          · exact h.lower_pid l hl
          · exact (hprops l (List.mem_of_mem_filter hl)).2.2.2.1
        · rw [List.map_append, List.nodup_append]
          refine ⟨h.upper_nodup,
            hnodup_new.sublist (List.Sublist.map Line.point_ids (List.filter_sublist _)),
            ?_⟩
          intro x hx hx'
          obtain ⟨l', hl', hxe'⟩ := List.mem_map.mp hx'
          have hupp := List.of_mem_filter hl'
          simp only [decide_eq_true_eq] at hupp
          have hlow := (hprops l' (List.mem_of_mem_filter hl')).2.2.2.2
          rw [hlow] at hupp
          exact absurd hupp (by simp)
        · rw [List.map_append, List.nodup_append]
          refine ⟨h.lower_nodup,
            hnodup_new.sublist (List.Sublist.map Line.point_ids (List.filter_sublist _)),
            ?_⟩
          intro x hx hx'
          obtain ⟨l, hl, hxe⟩ := List.mem_map.mp hx
          obtain ⟨l', hl', hxe'⟩ := List.mem_map.mp hx'
          have hnew := List.mem_of_mem_filter hl'
          obtain ⟨-, hm2, -, hpid', -⟩ := hprops l' hnew
          have hsnd : l.point_ids.2 = l.point2.id := by
            rw [h.lower_pid l hl]
          have hsnd' : l'.point_ids.2 = pid := by
            rw [hpid', hm2, hnpid]
          have hlt := hlo2 l hl
          rw [← hxe'] at hxe
          rw [← hxe] at hsnd'
          omega
      by_cases he : (genLoop np st.created_line_pairs st.troughs_list).1.isEmpty
      · rw [if_pos he]
        exact hst1
      · rw [if_neg he]
        exact inv_update_valid parse conf _ hst1

/-- Every id in `ev` (previously evicted) is below the id counter and
not resident in either pivot list. -/
def EvOk (st : DetectorState) (ev : List Nat) : Prop :=
  ∀ e ∈ ev, e < st.next_pivot_id ∧ e ∉ peakIds st ∧ e ∉ troughIds st

theorem appendPivotFull_id_mem (pv : PivotIn) (st : DetectorState) :
    (∀ i ∈ peakIds (appendPivotFull pv st), i ∈ peakIds st ∨ i = st.next_pivot_id) ∧
    (∀ i ∈ troughIds (appendPivotFull pv st), i ∈ troughIds st ∨ i = st.next_pivot_id) := by
  unfold appendPivotFull peakIds troughIds
  cases pv.ptype <;> constructor <;> intro i hi <;>
    simp only [List.map_append, List.map_cons, List.map_nil, List.mem_append,
      List.mem_cons, List.not_mem_nil, or_false] at hi ⊢ <;>
    tauto

theorem step_good (parse : String → Option Int) (conf : Config) (rec : Record)
    (st : DetectorState) (ev : List Nat) (h : DetInv st) (he : EvOk st ev) :
    DetInv (add_pivot_core parse conf rec st).state ∧
    EvOk (add_pivot_core parse conf rec st).state
      (ev ++ (add_pivot_core parse conf rec st).removed) := by
  cases hp : rec.pivot with
  | none =>
    have hstate : (add_pivot_core parse conf rec st).state = ingestCandle rec st := by
      unfold add_pivot_core
      rw [hp]
    have hrem : (add_pivot_core parse conf rec st).removed = [] := by
      unfold add_pivot_core
      rw [hp]
    rw [hstate, hrem, List.append_nil]
    refine ⟨inv_ingestCandle rec st h, ?_⟩
    intro e hee
    obtain ⟨h1, h2, h3⟩ := he e hee
    have hin := ingestCandle_frame rec st
    refine ⟨?_, ?_, ?_⟩
    · rw [hin.2.2.2.2.1]
      exact h1
    · unfold peakIds
      rw [hin.1]
      exact h2
    · unfold troughIds
      rw [hin.2.1]
      exact h3
  | some pv =>
    have hstate : (add_pivot_core parse conf rec st).state =
        (generate_new_lines_core parse conf (ingestCandle rec st).next_pivot_id
          (cleanup_old_pivots_core parse conf
            (appendPivotFull pv (ingestCandle rec st))).1).1 := by
      unfold add_pivot_core
      rw [hp]
    have hrem : (add_pivot_core parse conf rec st).removed =
        (cleanup_old_pivots_core parse conf
          (appendPivotFull pv (ingestCandle rec st))).2 := by
      unfold add_pivot_core
      rw [hp]
    have hin := ingestCandle_frame rec st
    have hap := appendPivotFull_frame pv (ingestCandle rec st)
    have h0 : DetInv (ingestCandle rec st) := inv_ingestCandle rec st h
    have h2 : DetInv (appendPivotFull pv (ingestCandle rec st)) :=
      inv_appendPivotFull pv _ h0
    obtain ⟨h3, hremp⟩ := inv_cleanup_core parse conf _ h2
    have hccnext := cleanup_core_next parse conf (appendPivotFull pv (ingestCandle rec st))
    have hnextg : (cleanup_old_pivots_core parse conf
        (appendPivotFull pv (ingestCandle rec st))).1.next_pivot_id =
        (ingestCandle rec st).next_pivot_id + 1 := by
      rw [hccnext, hap.2.2.2.2]
    have hupcc : ∀ l ∈ (cleanup_old_pivots_core parse conf
        (appendPivotFull pv (ingestCandle rec st))).1.upper_lines,
        l ∈ st.upper_lines := by
      intro l hl
      rw [cleanup_core_upper] at hl
      have hm := List.mem_of_mem_filter hl
      rw [hap.2.1, hin.2.2.1] at hm
      exact hm
    have hlocc : ∀ l ∈ (cleanup_old_pivots_core parse conf
        (appendPivotFull pv (ingestCandle rec st))).1.lower_lines,
        l ∈ st.lower_lines := by
      intro l hl
      rw [cleanup_core_lower] at hl
      have hm := List.mem_of_mem_filter hl
      rw [hap.2.2.1, hin.2.2.2.1] at hm
      exact hm
    have hup2 : ∀ l ∈ (cleanup_old_pivots_core parse conf
        (appendPivotFull pv (ingestCandle rec st))).1.upper_lines,
        l.point2.id < (ingestCandle rec st).next_pivot_id := by
      intro l hl
      have hmem := hupcc l hl
      obtain ⟨p, hp2, hpi⟩ := List.mem_map.mp (h.upper_mem l hmem).2
      have := h.peaks_lt p hp2
      rw [hin.2.2.2.2.1]
      omega
    have hlo2 : ∀ l ∈ (cleanup_old_pivots_core parse conf
        (appendPivotFull pv (ingestCandle rec st))).1.lower_lines,
        l.point2.id < (ingestCandle rec st).next_pivot_id := by
      intro l hl
      have hmem := hlocc l hl
      obtain ⟨p, hp2, hpi⟩ := List.mem_map.mp (h.lower_mem l hmem).2
      have := h.troughs_lt p hp2
      rw [hin.2.2.2.2.1]
      omega
    have h4 := inv_gen_core parse conf (ingestCandle rec st).next_pivot_id _
      h3 hnextg hup2 hlo2
    have hgf := gen_core_frame parse conf (ingestCandle rec st).next_pivot_id
      (cleanup_old_pivots_core parse conf (appendPivotFull pv (ingestCandle rec st))).1
    have hpsub : (cleanup_old_pivots_core parse conf
        (appendPivotFull pv (ingestCandle rec st))).1.peaks_list.Sublist
        (appendPivotFull pv (ingestCandle rec st)).peaks_list := by
      rw [cleanup_core_peaks]
      exact evictList_sublist _ _
    have htsub : (cleanup_old_pivots_core parse conf
        (appendPivotFull pv (ingestCandle rec st))).1.troughs_list.Sublist
        (appendPivotFull pv (ingestCandle rec st)).troughs_list := by
      rw [cleanup_core_troughs]
      exact evictList_sublist _ _
    constructor
    · rw [hstate]
      exact h4
    · rw [hstate, hrem]
      intro e hee
      rcases List.mem_append.mp hee with hee | hee
      · obtain ⟨h1, hpn, htn⟩ := he e hee
        refine ⟨?_, ?_, ?_⟩
        · rw [hgf.2.2.2, hccnext, hap.2.2.2.2, hin.2.2.2.2.1]
          omega
        · unfold peakIds
          rw [hgf.1]
          intro hmem
          have hmem2 : e ∈ peakIds (appendPivotFull pv (ingestCandle rec st)) :=
            (List.Sublist.map Pivot.id hpsub).mem hmem
          rcases (appendPivotFull_id_mem pv _).1 e hmem2 with hc | hc
          · apply hpn
            unfold peakIds at hc
            rw [hin.1] at hc
            exact hc
          · rw [hin.2.2.2.2.1] at hc
            omega
        · unfold troughIds
          rw [hgf.2.1]
          intro hmem
          have hmem2 : e ∈ troughIds (appendPivotFull pv (ingestCandle rec st)) :=
            (List.Sublist.map Pivot.id htsub).mem hmem
          rcases (appendPivotFull_id_mem pv _).2 e hmem2 with hc | hc
          · apply htn
            unfold troughIds at hc
            rw [hin.2.1] at hc
            exact hc
          · rw [hin.2.2.2.2.1] at hc
            omega
      · obtain ⟨h1, hpn, htn⟩ := hremp e hee
        refine ⟨?_, ?_, ?_⟩
        · rw [hgf.2.2.2, hccnext]
          exact h1
        · unfold peakIds
          rw [hgf.1]
          exact hpn
        · unfold troughIds
          rw [hgf.2.1]
          exact htn

theorem runTrace_good (parse : String → Option Int) (conf : Config)
    (recs : List Record) :
    ∀ (st : DetectorState) (ev : List Nat), DetInv st → EvOk st ev →
      DetInv (runTrace parse conf recs st ev).1 ∧
      EvOk (runTrace parse conf recs st ev).1 (runTrace parse conf recs st ev).2 := by
  induction recs with
  | nil =>
    intro st ev h he
    exact ⟨h, he⟩
  | cons r rest ih =>
    intro st ev h he
    obtain ⟨h', he'⟩ := step_good parse conf r st ev h he
    exact ih _ _ h' he'

theorem runTrace_fst (parse : String → Option Int) (conf : Config)
    (recs : List Record) :
    ∀ (st : DetectorState) (ev : List Nat),
      (runTrace parse conf recs st ev).1 = runRecords parse conf recs st := by
  induction recs with
  | nil =>
    intro st ev
    rfl
  | cons r rest ih =>
    intro st ev
    unfold runTrace
    rw [runRecords_cons]
    exact ih _ _

theorem runRecords_inv (parse : String → Option Int) (conf : Config)
    (recs : List Record) : DetInv (runRecords parse conf recs initState) := by
  rw [← runTrace_fst parse conf recs initState []]
  exact (runTrace_good parse conf recs initState [] inv_init
    (fun e he => absurd he (List.not_mem_nil e))).1

theorem add_pivot_pivots_bounded (parse : String → Option Int) (conf : Config)
    (rec : Record) (st : DetectorState)
    (h1 : st.peaks_list.length ≤ conf.max_pivots)
    (h2 : st.troughs_list.length ≤ conf.max_pivots) :
    (add_pivot parse conf rec st).peaks_list.length ≤ conf.max_pivots ∧
    (add_pivot parse conf rec st).troughs_list.length ≤ conf.max_pivots := by
  cases hp : rec.pivot with
  | none =>
    rw [add_pivot_state_nopivot parse conf rec hp st]
    have hin := ingestCandle_frame rec st
    rw [hin.1, hin.2.1]
    exact ⟨h1, h2⟩
  | some pv =>
    rw [add_pivot_state parse conf rec pv hp st]
    constructor
    · rw [(gen_core_frame _ _ _ _).1, cleanup_core_peaks]
      exact evictList_length conf _
    · rw [(gen_core_frame _ _ _ _).2.1, cleanup_core_troughs]
      exact evictList_length conf _

/-- C5: after every `add_pivot` call, the resident peak count and the
resident trough count are each at most `max_pivots` (the count rule
pops from the front of each list until the cap holds, before the age
rule runs). -/
theorem c5_pivot_lists_bounded (parse : String → Option Int) (conf : Config)
    (recs : List Record) (hmp : 0 < conf.max_pivots) :
    (runRecords parse conf recs initState).peaks_list.length ≤ conf.max_pivots ∧
    (runRecords parse conf recs initState).troughs_list.length ≤ conf.max_pivots := by
  have aux : ∀ (l : List Record) (st : DetectorState),
      st.peaks_list.length ≤ conf.max_pivots →
      st.troughs_list.length ≤ conf.max_pivots →
      (runRecords parse conf l st).peaks_list.length ≤ conf.max_pivots ∧
      (runRecords parse conf l st).troughs_list.length ≤ conf.max_pivots := by
    intro l
    induction l with
    | nil =>
      intro st h1 h2
      exact ⟨h1, h2⟩
    | cons r rest ih =>
      intro st h1 h2
      rw [runRecords_cons]
      obtain ⟨h1', h2'⟩ := add_pivot_pivots_bounded parse conf r st h1 h2
      exact ih _ h1' h2'
  exact aux recs initState (by simp [initState]) (by simp [initState])

theorem c5_pivot_lists_bounded_witness :
    0 < conf0.max_pivots ∧
    ((runRecords parse0 conf0 [c1r1, c1r2] initState).peaks_list.length ≤
        conf0.max_pivots ∧
      (runRecords parse0 conf0 [c1r1, c1r2] initState).troughs_list.length ≤
        conf0.max_pivots) :=
  ⟨by decide, c5_pivot_lists_bounded parse0 conf0 [c1r1, c1r2] (by decide)⟩

/-- C6: after every `add_pivot` call, no two resident upper lines
share the same unordered endpoint-id pair, and likewise for the lower
lines: every generated line pairs the strictly-newest pivot id with a
strictly smaller resident id, so new pairs can never collide with
pairs of already-resident lines even though rejected lines have their
pair discarded from `created_line_pairs`. -/
theorem c6_no_duplicate_pairs (parse : String → Option Int) (conf : Config)
    (recs : List Record) (hmp : 0 < conf.max_pivots) :
    ((runRecords parse conf recs initState).upper_lines.map
        (fun l => sortPair l.point1.id l.point2.id)).Nodup ∧
    ((runRecords parse conf recs initState).lower_lines.map
        (fun l => sortPair l.point1.id l.point2.id)).Nodup := by
  have hinv := runRecords_inv parse conf recs
  constructor
  · have hmapeq : (runRecords parse conf recs initState).upper_lines.map
        (fun l => sortPair l.point1.id l.point2.id) =
        (runRecords parse conf recs initState).upper_lines.map Line.point_ids := by
      refine List.map_congr_left ?_
      intro l hl
      unfold sortPair
      rw [if_pos (le_of_lt (hinv.upper_lt l hl))]
      exact (hinv.upper_pid l hl).symm
    rw [hmapeq]
    exact hinv.upper_nodup
  · have hmapeq : (runRecords parse conf recs initState).lower_lines.map
        (fun l => sortPair l.point1.id l.point2.id) =
        (runRecords parse conf recs initState).lower_lines.map Line.point_ids := by
      refine List.map_congr_left ?_
      intro l hl
      unfold sortPair
      rw [if_pos (le_of_lt (hinv.lower_lt l hl))]
      exact (hinv.lower_pid l hl).symm
    rw [hmapeq]
    exact hinv.lower_nodup

theorem c6_no_duplicate_pairs_witness :
    0 < conf0.max_pivots ∧
    (((runRecords parse0 conf0 [c1r1, c1r2] initState).upper_lines.map
        (fun l => sortPair l.point1.id l.point2.id)).Nodup ∧
      ((runRecords parse0 conf0 [c1r1, c1r2] initState).lower_lines.map
        (fun l => sortPair l.point1.id l.point2.id)).Nodup) :=
  ⟨by decide, c6_no_duplicate_pairs parse0 conf0 [c1r1, c1r2] (by decide)⟩

/-- C7: no pivot id evicted at any point during a run (by the count
rule or the age rule) appears as an endpoint id of any line resident
after the run: line eviction cascades with pivot eviction, resident
lines only reference resident pivots, and evicted ids are never
reassigned. -/
theorem c7_eviction_cascade (parse : String → Option Int) (conf : Config)
    (recs : List Record) (hmp : 0 < conf.max_pivots) :
    ∀ e ∈ (runTrace parse conf recs initState []).2,
      ∀ l ∈ (runTrace parse conf recs initState []).1.upper_lines ++
          (runTrace parse conf recs initState []).1.lower_lines,
        l.point1.id ≠ e ∧ l.point2.id ≠ e := by
  obtain ⟨hinv, hev⟩ := runTrace_good parse conf recs initState [] inv_init
    (fun e he => absurd he (List.not_mem_nil e))
  intro e hee l hl
  obtain ⟨-, hpn, htn⟩ := hev e hee
  rcases List.mem_append.mp hl with hl | hl
  · have hm := hinv.upper_mem l hl
    exact ⟨fun hq => hpn (hq ▸ hm.1), fun hq => hpn (hq ▸ hm.2)⟩
  · have hm := hinv.lower_mem l hl
    exact ⟨fun hq => htn (hq ▸ hm.1), fun hq => htn (hq ▸ hm.2)⟩

/-- A one-slot configuration, so that the second trough record evicts
the first trough. -/
def confE : Config :=
  { max_pivots := 1, max_age_ms := none, max_slope := none,
    min_distance_candles := 3, max_penetration_pct := Rat.divInt 3 10,
    max_penetrating_candles := 2 }

theorem c7_eviction_cascade_witness :
    (0 < confE.max_pivots ∧
     (runTrace parse0 confE [c1r1, c1r2] initState []).2 = [0]) ∧
    ∀ e ∈ (runTrace parse0 confE [c1r1, c1r2] initState []).2,
      ∀ l ∈ (runTrace parse0 confE [c1r1, c1r2] initState []).1.upper_lines ++
          (runTrace parse0 confE [c1r1, c1r2] initState []).1.lower_lines,
        l.point1.id ≠ e ∧ l.point2.id ≠ e :=
  ⟨⟨by decide, by decide⟩, c7_eviction_cascade parse0 confE [c1r1, c1r2] (by decide)⟩

/-- C10: every resident line stores its endpoints with
`point1.id < point2.id` (the engine always passes the older pivot as
`point1` and the newly added, largest-id pivot as `point2`), so the
stored `point_ids` tuple equals the sorted id pair used as the
deduplication key — and hence discarding `point_ids` on rejection or
eviction removes exactly the line's key from `created_line_pairs`. -/
theorem c10_point_ids_sorted (parse : String → Option Int) (conf : Config)
    (recs : List Record) (hmp : 0 < conf.max_pivots) :
    ∀ l ∈ (runRecords parse conf recs initState).upper_lines ++
        (runRecords parse conf recs initState).lower_lines,
      l.point1.id < l.point2.id ∧ l.point_ids = (l.point1.id, l.point2.id) ∧
      l.point_ids = sortPair l.point1.id l.point2.id := by
  have hinv := runRecords_inv parse conf recs
  intro l hl
  rcases List.mem_append.mp hl with hl | hl
  · refine ⟨hinv.upper_lt l hl, hinv.upper_pid l hl, ?_⟩
    unfold sortPair
    rw [if_pos (le_of_lt (hinv.upper_lt l hl))]
    exact hinv.upper_pid l hl
  · refine ⟨hinv.lower_lt l hl, hinv.lower_pid l hl, ?_⟩
    unfold sortPair
    rw [if_pos (le_of_lt (hinv.lower_lt l hl))]
    exact hinv.lower_pid l hl

theorem c10_point_ids_sorted_witness :
    (0 < conf0.max_pivots ∧
     (runRecords parse0 conf0 [c1r1, c1r2] initState).lower_lines ≠ []) ∧
    ∀ l ∈ (runRecords parse0 conf0 [c1r1, c1r2] initState).upper_lines ++
        (runRecords parse0 conf0 [c1r1, c1r2] initState).lower_lines,
      l.point1.id < l.point2.id ∧ l.point_ids = (l.point1.id, l.point2.id) ∧
      l.point_ids = sortPair l.point1.id l.point2.id :=
  ⟨⟨by decide, by decide⟩, c10_point_ids_sorted parse0 conf0 [c1r1, c1r2] (by decide)⟩
